import Mathlib

/-!
Verification of the `aaow` workflow orchestration core
(`packages/@aaow/core/src`): the transform evaluator
(`executors/transform.ts`), the budget pool manager (`budget.ts`) and the
workflow engine (`engine.ts`), shallowly embedded in Lean.

JSON-like runtime values are modelled by `Value`; JavaScript numbers are
modelled by `Int` (all budgets and token counts in the claims are integral,
and no claim depends on floating-point behaviour).  Opaque `metadata`
payloads, which the engine never inspects, are omitted from the records.
`Date.now()` / `new Date()` are modelled by a logical clock that yields a
fresh instant on every read.
-/

namespace Aaow

/-- JSON-like runtime value flowing between workflow nodes, as handled by
`executors/transform.ts`.  `vUndefined` is the absent sentinel (JavaScript
`undefined`); `vNull` is JSON `null`. -/
inductive Value where
  | vNull
  | vUndefined
  | vBool (b : Bool)
  | vInt (n : Int)
  | vStr (s : String)
  | vArr (elems : List Value)
  | vObj (fields : List (String × Value))
deriving Repr

namespace Value

/-- First-match lookup of an object field (JavaScript property read on a
plain object; later overriding entries are modelled by prepending). -/
def lookupField : List (String × Value) → String → Option Value
  | [], _ => none
  | (k, v) :: rest, key => if k = key then some v else lookupField rest key

/-- JavaScript `typeof`. -/
def jsTypeof : Value → String
  | vNull => "object"
  | vUndefined => "undefined"
  | vBool _ => "boolean"
  | vInt _ => "number"
  | vStr _ => "string"
  | vArr _ => "object"
  | vObj _ => "object"

mutual

/-- JavaScript `String(v)` on JSON-like values: strings unchanged, numbers
in decimal, `null`/`undefined` by name, arrays joined by commas (with
`null`/`undefined` elements rendered empty, as `Array.prototype.join`
does), plain objects as `"[object Object]"`. -/
def jsToString : Value → String
  | vNull => "null"
  | vUndefined => "undefined"
  | vBool b => if b then "true" else "false"
  | vInt n => n.repr
  | vStr s => s
  | vArr elems => joinElems elems
  | vObj _ => "[object Object]"

/-- Comma-join of array elements for `jsToString`; `null`/`undefined`
elements render empty. -/
def joinElems : List Value → String
  | [] => ""
  | [vNull] => ""
  | [vUndefined] => ""
  | [x] => jsToString x
  | vNull :: rest => "," ++ joinElems rest
  | vUndefined :: rest => "," ++ joinElems rest
  | x :: rest => jsToString x ++ "," ++ joinElems rest

end

/-- Whether `key` is the canonical decimal form of the index `i` (JavaScript
array indexing `a["05"]` does not hit element 5, only `a["5"]` does). -/
def canonicalIndex (key : String) : Option Nat :=
  match key.toNat? with
  | some i => if Nat.repr i = key then some i else none
  | none => none

/-- JavaScript property read `current[key]` on a JSON-like value: object
field, array element / `length`, string character / `length`; reads on
other primitives yield `undefined`.  Never called on `null`/`undefined`
by `getValueByPath` (which checks `current == null` first). -/
def indexValue : Value → String → Value
  | vObj fields, key => (lookupField fields key).getD vUndefined
  | vArr elems, key =>
    if key = "length" then vInt elems.length
    else
      match canonicalIndex key with
      | some i => elems.getD i vUndefined
      | none => vUndefined
  | vStr s, key =>
    if key = "length" then vInt s.length
    else
      match canonicalIndex key with
      | some i =>
        match s.data.get? i with
        | some c => vStr (String.mk [c])
        | none => vUndefined
      | none => vUndefined
  | _, _ => vUndefined

end Value

open Value

/-- `getValueByPath` from `executors/transform.ts`: walk `path`, returning
`undefined` as soon as the current value is `null`/`undefined`
(the source's `current == null` check, which in JavaScript matches both). -/
def getValueByPath (data : Value) (path : List String) : Value :=
  match path with
  | [] => data
  | key :: rest =>
    match data with
    | .vNull => .vUndefined
    | .vUndefined => .vUndefined
    | v => getValueByPath (indexValue v key) rest

/-- The transform-expression language (`WorkflowNodeTransformFn` in
`@aaow/types`): `branches`/`value` records are association lists in
insertion order. -/
inductive TransformFn where
  | const (value : Value)
  | get (path : Option (List String))
  | withPath (path : List String) (fn : TransformFn)
  | ifExpr (path : Option (List String)) (branches : List (String × TransformFn))
  | map (path : Option (List String)) (fn : TransformFn)
  | object (value : List (String × TransformFn))
  | taggedUnion (tag : String) (value : List (String × TransformFn))
deriving Repr

/-- Errors thrown by `executeTransform` (each carries the data interpolated
into the thrown `Error` message). -/
inductive TError where
  | noMatchingBranch (stringValue : String)
  | typeMismatch (path : List String) (typeofGot : String)
deriving Repr, DecidableEq

/-- The message of the thrown `Error`. -/
def TError.message : TError → String
  | .noMatchingBranch s => "No branch found for value: " ++ s
  | .typeMismatch p t =>
    "Expected array at path " ++ String.intercalate "." p ++ ", got " ++ t

/-- First-match lookup in a `branches`/`value` record of transform
expressions (JavaScript `obj[key]` with `key in obj`). -/
def lookupFn : List (String × TransformFn) → String → Option TransformFn
  | [], _ => none
  | (k, f) :: rest, key => if k = key then some f else lookupFn rest key

theorem sizeOf_lookupFn {fns : List (String × TransformFn)} {key : String}
    {f : TransformFn} (h : lookupFn fns key = some f) :
    sizeOf f < sizeOf fns := by
  induction fns with
  | nil => simp [lookupFn] at h
  | cons kv rest ih =>
    obtain ⟨k, g⟩ := kv
    by_cases hk : k = key
    · simp [lookupFn, hk] at h
      subst h
      simp
      omega
    · simp [lookupFn, hk] at h
      have := ih h
      simp
      omega

/-- The tagged-union arm of the `if` case: when the scrutinee is an object
owning a `tag` property whose (string form) is a key of `branches`, that
branch is selected; otherwise the source falls through to plain string
dispatch. -/
def ifTagBranch (branches : List (String × TransformFn)) (value : Value) :
    Option TransformFn :=
  match value with
  | .vObj fields =>
    match lookupField fields "tag" with
    | some tagv => lookupFn branches (jsToString tagv)
    | none => none
  | _ => none

theorem sizeOf_ifTagBranch {branches : List (String × TransformFn)}
    {value : Value} {f : TransformFn} (h : ifTagBranch branches value = some f) :
    sizeOf f < sizeOf branches := by
  unfold ifTagBranch at h
  split at h
  · split at h
    · exact sizeOf_lookupFn h
    · simp at h
  · simp at h

/-- The `{ ...data, item }` overlay used by the `map` case: on a plain
object prepend the overriding `item` binding; spreading an array turns its
indices into keys; any other value yields a bare `{ item }`. -/
def overlayItem (data : Value) (item : Value) : Value :=
  match data with
  | .vObj fields => .vObj (("item", item) :: fields)
  | .vArr elems =>
    .vObj (("item", item) :: (elems.enum.map fun p => (Nat.repr p.1, p.2)))
  | _ => .vObj [("item", item)]

mutual

/-- `executeTransform` from `executors/transform.ts`: interpret a transform
expression against `data`, scoping every path lookup under `basePath`. -/
def executeTransform (fn : TransformFn) (data : Value) (basePath : List String) :
    Except TError Value :=
  match fn with
  | .const v => .ok v
  | .get path => .ok (getValueByPath data (basePath ++ path.getD []))
  | .withPath path f => executeTransform f data (basePath ++ path)
  | .ifExpr path branches =>
    let value := getValueByPath data (basePath ++ path.getD [])
    match h : ifTagBranch branches value with
    | some b => executeTransform b data basePath
    | none =>
      match h2 : lookupFn branches (jsToString value) with
      | some b => executeTransform b data basePath
      | none => .error (.noMatchingBranch (jsToString value))
  | .map path f =>
    let p := basePath ++ path.getD []
    let value := getValueByPath data p
    match value with
    | .vArr elems =>
      match execElems f elems data basePath with
      | .ok vs => .ok (.vArr vs)
      | .error e => .error e
    | v => .error (.typeMismatch p (jsTypeof v))
  | .object fields =>
    match execFields fields data basePath with
    | .ok kvs => .ok (.vObj kvs)
    | .error e => .error e
  | .taggedUnion tag fields =>
    match execFields fields data basePath with
    | .ok kvs => .ok (.vObj (("tag", .vStr tag) :: kvs))
    | .error e => .error e
termination_by (sizeOf fn, 0)
decreasing_by
  all_goals simp_wf
  all_goals apply Prod.Lex.left
  all_goals first
    | (have h9 := sizeOf_ifTagBranch h; omega)
    | (have h9 := sizeOf_lookupFn h2; omega)
    | omega

/-- Evaluate each field of an `object`/`taggedUnion` record in order. -/
def execFields (fns : List (String × TransformFn)) (data : Value)
    (basePath : List String) : Except TError (List (String × Value)) :=
  match fns with
  | [] => .ok []
  | (k, f) :: rest =>
    match executeTransform f data basePath with
    | .error e => .error e
    | .ok v =>
      match execFields rest data basePath with
      | .error e => .error e
      | .ok vs => .ok ((k, v) :: vs)
termination_by (sizeOf fns, 0)
decreasing_by
  all_goals simp_wf
  all_goals apply Prod.Lex.left
  all_goals omega

/-- Evaluate the `map` body on each array element, with `data` overlaid by
`{ item }`. -/
def execElems (f : TransformFn) (elems : List Value) (data : Value)
    (basePath : List String) : Except TError (List Value) :=
  match elems with
  | [] => .ok []
  | x :: rest =>
    match executeTransform f (overlayItem data x) basePath with
    | .error e => .error e
    | .ok v =>
      match execElems f rest data basePath with
      | .error e => .error e
      | .ok vs => .ok (v :: vs)
termination_by (sizeOf f, sizeOf elems)
decreasing_by
  all_goals simp_wf
  all_goals apply Prod.Lex.right
  all_goals omega

end

/-! ### Budget pool manager (`budget.ts`) -/

/-- `BudgetPoolStatus` from `@aaow/types`. -/
inductive PoolStatus where
  | active
  | exhausted
  | suspended
deriving Repr, DecidableEq

/-- `BudgetPool` from `@aaow/types` (opaque `metadata` omitted; the
timestamp is the logical clock value at creation). -/
structure BudgetPool where
  id : String
  parentPoolId : Option String
  totalBudget : Int
  usedBudget : Int
  remainingBudget : Int
  status : PoolStatus
  createdAt : Nat
deriving Repr, DecidableEq

/-- Errors thrown by the budget manager and the engine.  Each constructor
carries the data interpolated into the thrown `Error` message; `outOfFuel`
is the embedding's recursion bound, not a source error (theorems about
general runs require an `.ok` result or supply sufficient fuel). -/
inductive EngineError where
  | poolNotFound (poolId : String)
  | poolNotActive (poolId : String)
  | insufficientBudget (poolId : String)
  | duplicatePool (poolId : String)
  | noModel
  | humanReviewRequired (approvalId : String)
  | workflowApprovalRequired (approvalId : String)
  | cycleDetected (nodeId : String)
  | nodeNotFound (nodeId : String) (groupId : String)
  | noOutgoingEdge (nodeId : String)
  | notImplemented (nodeType : String)
  | llmFailed (msg : String)
  | transformError (e : TError)
  | workflowNotFound (ref : String)
  | approvalNotFound (approvalId : String)
  | notApproved (approvalId : String)
  | outOfFuel
deriving Repr, DecidableEq

/-- The message of the thrown `Error`, per the source's template strings. -/
def EngineError.message : EngineError → String
  | .poolNotFound id => "Budget pool " ++ id ++ " not found"
  | .poolNotActive id => "Budget pool " ++ id ++ " is not active"
  | .insufficientBudget id => "Insufficient budget in pool " ++ id
  | .duplicatePool id => "Budget pool " ++ id ++ " already exists"
  | .noModel => "No language model configured for LLM node execution"
  | .humanReviewRequired a => "Human review required. Approval request: " ++ a
  | .workflowApprovalRequired a =>
    "Workflow call approval required. Approval request: " ++ a
  | .cycleDetected n => "Cycle detected at node " ++ n
  | .nodeNotFound n g => "Node " ++ n ++ " not found in group " ++ g
  | .noOutgoingEdge n => "No outgoing edge found for node " ++ n
  | .notImplemented t => "Node type " ++ t ++ " is not yet implemented"
  | .llmFailed m => m
  | .transformError e => e.message
  | .workflowNotFound r => "Workflow " ++ r ++ " not found"
  | .approvalNotFound a => "Approval request " ++ a ++ " not found"
  | .notApproved a => "Approval request " ++ a ++ " is not approved"
  | .outOfFuel => "out of fuel"

deriving instance DecidableEq for Except

/-- `storage.getBudgetPool`: select the pool row by id. -/
def getBudgetPool (pools : List BudgetPool) (poolId : String) : Option BudgetPool :=
  pools.find? fun p => p.id = poolId

/-- `storage.updateBudgetPool`: update the fields of the row with the given
id (every call site passes a concrete field update). -/
def updateBudgetPool (pools : List BudgetPool) (poolId : String)
    (upd : BudgetPool → BudgetPool) : List BudgetPool :=
  pools.map fun p => if p.id = poolId then upd p else p

/-- `BudgetPoolManager.createPool`: build the pool row (zero used, full
remaining, `active`) and insert it.  The store's primary-key constraint on
`id` rejects duplicates. -/
def createPool (pools : List BudgetPool) (id : String) (totalBudget : Int)
    (parentPoolId : Option String) (now : Nat) :
    List BudgetPool × Except EngineError BudgetPool :=
  match getBudgetPool pools id with
  | some _ => (pools, .error (.duplicatePool id))
  | none =>
    let pool : BudgetPool :=
      { id := id, parentPoolId := parentPoolId, totalBudget := totalBudget,
        usedBudget := 0, remainingBudget := totalBudget,
        status := .active, createdAt := now }
    (pool :: pools, .ok pool)

/-- `BudgetPoolManager.checkBudget`. -/
def checkBudget (pools : List BudgetPool) (poolId : String) (amount : Int) :
    Except EngineError Bool :=
  match getBudgetPool pools poolId with
  | none => .error (.poolNotFound poolId)
  | some pool =>
    if pool.status ≠ .active then .ok false
    else .ok (pool.remainingBudget ≥ amount)

/-- The field update persisted by `consumeBudget`: the decremented
`usedBudget`/`remainingBudget` computed from the loaded `pool`, with
status `exhausted` when the new remaining is ≤ 0. -/
def consumeUpd (pool : BudgetPool) (amount : Int) (p : BudgetPool) : BudgetPool :=
  { p with
    usedBudget := pool.usedBudget + amount,
    remainingBudget := pool.remainingBudget - amount,
    status := if pool.remainingBudget - amount ≤ 0 then .exhausted else .active }

/-- `BudgetPoolManager.consumeBudget`: load, require `active` and enough
remaining budget, persist the decremented row (status `exhausted` when the
new remaining is ≤ 0), then recursively consume the same amount from the
parent pool.  Updates persisted before a failure deeper in the parent
chain remain persisted (the source performs no transaction).  `fuel`
bounds the parent-chain recursion. -/
def consumeBudget : Nat → List BudgetPool → String → Int →
    List BudgetPool × Except EngineError Unit
  | 0, pools, _, _ => (pools, .error .outOfFuel)
  | fuel + 1, pools, poolId, amount =>
    match getBudgetPool pools poolId with
    | none => (pools, .error (.poolNotFound poolId))
    | some pool =>
      if pool.status ≠ .active then (pools, .error (.poolNotActive poolId))
      else if pool.remainingBudget < amount then
        (pools, .error (.insufficientBudget poolId))
      else
        let pools1 := updateBudgetPool pools poolId (consumeUpd pool amount)
        match pool.parentPoolId with
        | some parentId => consumeBudget fuel pools1 parentId amount
        | none => (pools1, .ok ())

/-- The field update persisted by `increaseBudget`: raised
`totalBudget`/`remainingBudget`; a positive new remaining reactivates the
pool, otherwise the status is kept. -/
def increaseUpd (pool : BudgetPool) (amount : Int) (p : BudgetPool) : BudgetPool :=
  { p with
    totalBudget := pool.totalBudget + amount,
    remainingBudget := pool.remainingBudget + amount,
    status := if pool.remainingBudget + amount > 0 then .active else pool.status }

/-- `BudgetPoolManager.increaseBudget`. -/
def increaseBudget (pools : List BudgetPool) (poolId : String) (amount : Int) :
    List BudgetPool × Except EngineError Unit :=
  match getBudgetPool pools poolId with
  | none => (pools, .error (.poolNotFound poolId))
  | some pool =>
    (updateBudgetPool pools poolId (increaseUpd pool amount), .ok ())

/-- `BudgetPoolManager.suspendPool`: set status `suspended` (no existence
check in the source). -/
def suspendPool (pools : List BudgetPool) (poolId : String) : List BudgetPool :=
  updateBudgetPool pools poolId fun p => { p with status := .suspended }

/-- `BudgetPoolManager.reactivatePool`: back to `active` only when some
budget remains. -/
def reactivatePool (pools : List BudgetPool) (poolId : String) :
    List BudgetPool × Except EngineError Unit :=
  match getBudgetPool pools poolId with
  | none => (pools, .error (.poolNotFound poolId))
  | some pool =>
    if pool.remainingBudget > 0 then
      (updateBudgetPool pools poolId fun p => { p with status := .active }, .ok ())
    else (pools, .ok ())

/-- A single-threaded budget-manager call, for stating invariants over
operation sequences. -/
inductive BudgetOp where
  | create (id : String) (totalBudget : Int) (parentPoolId : Option String)
  | consume (poolId : String) (amount : Int)
  | increase (poolId : String) (amount : Int)
  | suspendPool (poolId : String)
  | reactivate (poolId : String)
deriving Repr, DecidableEq

/-- Apply one budget-manager call to the pool store, keeping whatever the
call persisted even when it threw (as the source does). -/
def runBudgetOp (pools : List BudgetPool) : BudgetOp → List BudgetPool
  | .create id total parent => (createPool pools id total parent 0).1
  | .consume id amount => (consumeBudget (pools.length + 1) pools id amount).1
  | .increase id amount => (increaseBudget pools id amount).1
  | .suspendPool id => suspendPool pools id
  | .reactivate id => (reactivatePool pools id).1

/-- Run a call sequence from an empty store. -/
def runBudgetOps (ops : List BudgetOp) : List BudgetPool :=
  ops.foldl runBudgetOp []

/-- Sanity conditions on a call: pools are created with a positive total
budget and top-ups are nonnegative. -/
def BudgetOp.wf : BudgetOp → Bool
  | .create _ total _ => total > 0
  | .increase _ amount => amount ≥ 0
  | _ => true

/-- The parent-pool ids reachable from a pool reference by iterating
`parentPoolId`, to fuel depth. -/
def parentChain (pools : List BudgetPool) : Nat → Option String → List String
  | _, none => []
  | 0, some _ => []
  | fuel + 1, some id =>
    id :: (match getBudgetPool pools id with
           | some p => parentChain pools fuel p.parentPoolId
           | none => [])

/-! ### Engine data model (`@aaow/types`, `engine.ts`)

Fields the executor never reads — node `inputType`/`outputType`, LLM
`reviewers`, group `context`, tool `overridedInput`, and all opaque
`metadata` — are omitted from the embedding. -/

/-- `SessionStatus` (the source's snake_case string constants). -/
inductive SessionStatus where
  | running
  | paused
  | completed
  | failed
  | waitingForHumanReview
  | waitingForBudgetApproval
  | waitingForWorkflowApproval
deriving Repr, DecidableEq

/-- `WorkflowTool`: intrinsic tools or a named custom tool. -/
inductive WorkflowTool where
  | requestIncreaseMaxRetries
  | logIncident
  | custom (name : String)
deriving Repr, DecidableEq

/-- `WorkflowEdge` (`from`/`to` rendered as `fromId`/`toId`). -/
structure WorkflowEdge where
  fromId : String
  toId : String
  previousNodeMessageOutputFieldName : Option String
  messageInputFieldName : Option String
  description : String
deriving Repr, DecidableEq

/-- `WorkflowNode`: the node variants executed by `engine.ts`.  `stream`
and `generator` carry no payload here because the executor fails on them
before reading any field. -/
inductive WorkflowNode where
  | group (label : String) (nodes : List (String × WorkflowNode))
      (edges : List WorkflowEdge) (entryPoint : String) (exitPoint : String)
  | llm (maxRetries : Nat) (systemPrompt : Option String)
      (availableTools : List WorkflowTool) (requiresHumanReview : Option Bool)
  | transform (fn : TransformFn)
  | callWorkflow (workflowRef : String) (inputMapping : Option TransformFn)
      (outputMapping : Option TransformFn) (requiresApproval : Option Bool)
  | stream
  | generator
deriving Repr

/-- `Workflow`: a node tree rooted at a group node (`typedefs` are not
consulted by the executor). -/
structure Workflow where
  root : WorkflowNode
deriving Repr

/-- First-match lookup in a group's `nodes` record. -/
def lookupNode : List (String × WorkflowNode) → String → Option WorkflowNode
  | [], _ => none
  | (k, n) :: rest, key => if k = key then some n else lookupNode rest key

/-- `Session` (the `workflowSnapshot` freezes the definition). -/
structure Session where
  id : String
  workflowId : String
  workflowSnapshot : Workflow
  status : SessionStatus
  createdAt : Nat
  updatedAt : Nat
deriving Repr

/-- `NodeExecutionStatus`. -/
inductive NodeStatus where
  | pending
  | running
  | completed
  | failed
  | skipped
  | waitingForApproval
  | waitingForReview
deriving Repr, DecidableEq

/-- `NodeExecutionState` as written by `engine.ts` (it never sets
`retryCount`, `pendingApprovalId` or `metadata`, so they are omitted). -/
structure NodeExecutionState where
  nodeId : String
  status : NodeStatus
  input : Option Value
  output : Option Value
  error : Option String
  startedAt : Option Nat
  completedAt : Option Nat
deriving Repr

/-- `WorkflowExecutionState` (`nodeStates` is initialised to `{}` by the
engine and maintained through separate `updateNodeState` rows, so the
embedded record omits the map). -/
structure WorkflowExecutionState where
  sessionId : String
  budgetPoolId : Option String
  status : SessionStatus
  startedAt : Nat
  completedAt : Option Nat
deriving Repr

/-- `ApprovalType`. -/
inductive ApprovalType where
  | humanReview
  | budgetIncrease
  | workflowCall
deriving Repr, DecidableEq

/-- `ApprovalStatus`. -/
inductive ApprovalStatus where
  | pending
  | approved
  | rejected
  | expired
deriving Repr, DecidableEq

/-- The typed `context` payloads `engine.ts` writes on approvals. -/
inductive ApprovalContext where
  | humanReview (description : String) (llmOutput : Value)
  | workflowCall (description : String) (workflowRef : String)
deriving Repr

/-- `ApprovalRequest`. -/
structure ApprovalRequest where
  id : String
  sessionId : String
  nodeId : String
  type : ApprovalType
  status : ApprovalStatus
  context : ApprovalContext
  createdAt : Nat
deriving Repr

/-- Token usage reported by the provider. -/
structure LLMUsage where
  promptTokens : Int
  completionTokens : Int
  totalTokens : Int
deriving Repr, DecidableEq

/-- `LLMExecutionResult` from `executors/llm.ts` (tool-call logs live in
the provider/tool bridge, outside this embedding). -/
structure LLMExecutionResult where
  success : Bool
  text : Option String
  usage : Option LLMUsage
  error : Option String
deriving Repr, DecidableEq

/-- The row written by `storage.saveLLMExecution`. -/
structure LLMExecutionRecord where
  id : String
  sessionId : String
  nodeId : String
  timestamp : Nat
  result : LLMExecutionResult
deriving Repr

/-- `StoredWorkflow`. -/
structure StoredWorkflow where
  id : String
  name : String
  version : String
  definition : Workflow
  createdAt : Nat
  updatedAt : Nat
deriving Repr

/-- The persistent store visible to the engine.  Row inserts prepend;
reads take the first match, so an upsert is modelled by prepending. -/
structure Store where
  workflows : List StoredWorkflow
  sessions : List Session
  executionStates : List WorkflowExecutionState
  nodeStates : List (String × String × NodeExecutionState)
  llmExecutions : List LLMExecutionRecord
  approvals : List ApprovalRequest
  pools : List BudgetPool
deriving Repr

/-- Engine state: the store plus the logical clock backing `Date.now()` /
`new Date()`.  Each read yields a fresh, strictly increasing instant. -/
structure EngineState where
  store : Store
  clock : Nat
deriving Repr

/-- One clock read. -/
def tick (s : EngineState) : Nat × EngineState :=
  (s.clock, { s with clock := s.clock + 1 })

/-- `storage.createSession`. -/
def Store.createSession (st : Store) (session : Session) : Store :=
  { st with sessions := session :: st.sessions }

/-- The partial session updates `engine.ts` passes to
`storage.updateSession` (`status` always, `updatedAt` sometimes). -/
structure SessionUpdate where
  status : Option SessionStatus
  updatedAt : Option Nat

/-- Merge a partial update into a session row. -/
def applySessionUpdate (upd : SessionUpdate) (session : Session) : Session :=
  { session with
    status := upd.status.getD session.status,
    updatedAt := upd.updatedAt.getD session.updatedAt }

/-- `storage.updateSession`. -/
def Store.updateSession (st : Store) (sessionId : String) (upd : SessionUpdate) :
    Store :=
  { st with sessions := st.sessions.map fun session =>
      if session.id = sessionId then applySessionUpdate upd session else session }

/-- `storage.getSession` (reads take the first match). -/
def Store.findSession (st : Store) (sessionId : String) : Option Session :=
  st.sessions.find? fun session => session.id = sessionId

/-- `storage.saveExecutionState` (upsert keyed by `sessionId`). -/
def Store.saveExecutionState (st : Store) (es : WorkflowExecutionState) : Store :=
  { st with executionStates := es :: st.executionStates }

/-- `storage.updateNodeState` (upsert keyed by `(sessionId, nodeId)`). -/
def Store.updateNodeState (st : Store) (sessionId nodeId : String)
    (ns : NodeExecutionState) : Store :=
  { st with nodeStates := (sessionId, nodeId, ns) :: st.nodeStates }

/-- Read the current node state row for `(sessionId, nodeId)`. -/
def Store.findNodeState (st : Store) (sessionId nodeId : String) :
    Option NodeExecutionState :=
  (st.nodeStates.find? fun r => r.1 = sessionId ∧ r.2.1 = nodeId).map
    fun r => r.2.2

/-- `storage.createApprovalRequest`. -/
def Store.createApprovalRequest (st : Store) (a : ApprovalRequest) : Store :=
  { st with approvals := a :: st.approvals }

/-- `storage.getApprovalRequest`. -/
def Store.findApproval (st : Store) (approvalId : String) :
    Option ApprovalRequest :=
  st.approvals.find? fun a => a.id = approvalId

/-- `storage.saveLLMExecution`. -/
def Store.saveLLMExecution (st : Store) (r : LLMExecutionRecord) : Store :=
  { st with llmExecutions := r :: st.llmExecutions }

/-- `storage.getWorkflow`. -/
def Store.getWorkflow (st : Store) (workflowId : String) :
    Option StoredWorkflow :=
  st.workflows.find? fun w => w.id = workflowId

/-- A request to the LLM provider (`generateText`), as shaped by
`executors/llm.ts`. -/
structure GenRequest where
  systemPrompt : Option String
  prompt : String
  tools : List String
  maxRetries : Nat

/-- A provider response: final text and optional token usage. -/
structure GenResponse where
  text : String
  usage : Option LLMUsage

/-- Engine construction options: whether a language model is configured,
the names in the caller-supplied tool registry, and the provider itself as
an oracle (`generateText`), which the embedding treats as a pure
function. -/
structure EngineCtx where
  hasModel : Bool
  tools : List String
  generate : GenRequest → Except String GenResponse

mutual

/-- `JSON.stringify` on JSON-like values, used to serialize a non-string
prompt (the source passes `null, 2` for pretty-printing and escapes string
contents; whitespace and escaping are abstracted here, and the absent
sentinel is rendered as `null`). -/
def jsonStringify : Value → String
  | .vNull => "null"
  | .vUndefined => "null"
  | .vBool b => if b then "true" else "false"
  | .vInt n => n.repr
  | .vStr str => "\"" ++ str ++ "\""
  | .vArr elems => "[" ++ jsonStringifyElems elems ++ "]"
  | .vObj fields => "\x7b" ++ jsonStringifyFields fields ++ "\x7d"

/-- Array elements of `jsonStringify`. -/
def jsonStringifyElems : List Value → String
  | [] => ""
  | [x] => jsonStringify x
  | x :: rest => jsonStringify x ++ "," ++ jsonStringifyElems rest

/-- Object fields of `jsonStringify`. -/
def jsonStringifyFields : List (String × Value) → String
  | [] => ""
  | [(k, v)] => "\"" ++ k ++ "\":" ++ jsonStringify v
  | (k, v) :: rest =>
    "\"" ++ k ++ "\":" ++ jsonStringify v ++ "," ++ jsonStringifyFields rest

end

/-- `executeLLM` from `executors/llm.ts`: serialize the prompt (strings
as-is, else JSON), call the provider with the node's tools, and return a
success record or a failure record with the error message — it never
throws.  Tool-call logging happens inside provider callbacks and is part
of the oracle. -/
def executeLLM (ctx : EngineCtx) (prompt : Value) (systemPrompt : Option String)
    (tools : List String) (maxRetries : Nat) : LLMExecutionResult :=
  let promptText :=
    match prompt with
    | .vStr str => str
    | v => jsonStringify v
  match ctx.generate
      { systemPrompt := systemPrompt, prompt := promptText,
        tools := tools, maxRetries := maxRetries } with
  | .ok r => { success := true, text := some r.text, usage := r.usage, error := none }
  | .error msg => { success := false, text := none, usage := none, error := some msg }

/-- The generated session id `session-${Date.now()}`. -/
def mkSessionId (t : Nat) : String := "session-" ++ Nat.repr t

/-- The generated approval id `approval-${sessionId}-${nodeId}-${Date.now()}`. -/
def mkApprovalId (sessionId nodeId : String) (t : Nat) : String :=
  "approval-" ++ sessionId ++ "-" ++ nodeId ++ "-" ++ Nat.repr t

/-- The generated LLM execution id `llm-${sessionId}-${nodeId}-${Date.now()}`. -/
def mkLLMExecutionId (sessionId nodeId : String) (t : Nat) : String :=
  "llm-" ++ sessionId ++ "-" ++ nodeId ++ "-" ++ Nat.repr t

/-- Options of `WorkflowEngine.executeWorkflow`. -/
structure ExecOptions where
  sessionId : Option String
  budgetPoolId : Option String

/-- The run result `{ sessionId, output, success }`. -/
structure RunResult where
  sessionId : String
  output : Value
  success : Bool
deriving Repr

/-- `executeTransformNode`: delegate to the transform evaluator with the
default base path. -/
def executeTransformNode (fn : TransformFn) (input : Value) :
    Except EngineError Value :=
  match executeTransform fn input [] with
  | .ok v => .ok v
  | .error e => .error (.transformError e)

/-- `executeLLMNode`: require a configured model; when
`requiresHumanReview` is set, write a pending `human_review` approval, set
the session status to `waiting_for_human_review`, and throw the
"Human review required" error *before* invoking the provider (so the
approval's `llmOutput` carries the node input).  Otherwise filter the
node's custom tools through the registry, run `executeLLM`, persist the
execution record, consume budget when a pool and usage are present, and
fail if the result was unsuccessful. -/
def executeLLMNode (ctx : EngineCtx) (maxRetries : Nat)
    (systemPrompt : Option String) (availableTools : List WorkflowTool)
    (requiresHumanReview : Option Bool) (nodeId : String) (input : Value)
    (sessionId : String) (budgetPoolId : Option String) (s : EngineState) :
    EngineState × Except EngineError Value :=
  if ctx.hasModel = false then (s, .error .noModel)
  else if requiresHumanReview = some true then
    let (t1, s) := tick s
    let approvalId := mkApprovalId sessionId nodeId t1
    let (t2, s) := tick s
    let approval : ApprovalRequest :=
      { id := approvalId, sessionId := sessionId, nodeId := nodeId,
        type := .humanReview, status := .pending,
        context := .humanReview "Human review required for LLM node" input,
        createdAt := t2 }
    let s := { s with store := s.store.createApprovalRequest approval }
    let upd : SessionUpdate :=
      { status := some .waitingForHumanReview, updatedAt := none }
    let s := { s with store := s.store.updateSession sessionId upd }
    (s, .error (.humanReviewRequired approvalId))
  else
    let nodeTools := availableTools.filterMap fun t =>
      match t with
      | .custom name => if ctx.tools.contains name then some name else none
      | _ => none
    let result := executeLLM ctx input systemPrompt nodeTools maxRetries
    let (t3, s) := tick s
    let (t4, s) := tick s
    let record : LLMExecutionRecord :=
      { id := mkLLMExecutionId sessionId nodeId t3, sessionId := sessionId,
        nodeId := nodeId, timestamp := t4, result := result }
    let s := { s with store := s.store.saveLLMExecution record }
    let consumed : EngineState × Except EngineError Unit :=
      match budgetPoolId, result.usage with
      | some poolId, some usage =>
        let (pools1, r) :=
          consumeBudget (s.store.pools.length + 1) s.store.pools poolId
            usage.totalTokens
        ({ s with store := { s.store with pools := pools1 } }, r)
      | _, _ => (s, .ok ())
    match consumed with
    | (s, .error e) => (s, .error e)
    | (s, .ok ()) =>
      if result.success = false then
        (s, .error (.llmFailed (result.error.getD "LLM execution failed")))
      else (s, .ok (.vStr (result.text.getD "")))

mutual

/-- `WorkflowEngine.executeWorkflow`: create the session (generated id
unless supplied) and execution state, run the root node, and on success
mark session and execution state `completed`; on ANY error — including
approval suspensions — mark both `failed` and re-throw.  `fuel` bounds the
recursion through nested groups and workflow calls. -/
def executeWorkflow (ctx : EngineCtx) : Nat → Workflow → String → Value →
    ExecOptions → EngineState → EngineState × Except EngineError RunResult
  | 0, _, _, _, _, s => (s, .error .outOfFuel)
  | fuel + 1, workflow, workflowId, input, options, s =>
    let (sessionId, s) :=
      match options.sessionId with
      | some sid => (sid, s)
      | none =>
        let (t, s) := tick s
        (mkSessionId t, s)
    let (tc, s) := tick s
    let (tu, s) := tick s
    let session : Session :=
      { id := sessionId, workflowId := workflowId, workflowSnapshot := workflow,
        status := .running, createdAt := tc, updatedAt := tu }
    let s := { s with store := s.store.createSession session }
    let (ts, s) := tick s
    let executionState : WorkflowExecutionState :=
      { sessionId := sessionId, budgetPoolId := options.budgetPoolId,
        status := .running, startedAt := ts, completedAt := none }
    let s := { s with store := s.store.saveExecutionState executionState }
    match executeNode ctx fuel workflow.root "root" input sessionId
        options.budgetPoolId s with
    | (s, .ok output) =>
      let (tu2, s) := tick s
      let upd : SessionUpdate := { status := some .completed, updatedAt := some tu2 }
      let s := { s with store := s.store.updateSession sessionId upd }
      let (tc2, s) := tick s
      let es2 := { executionState with
        status := SessionStatus.completed, completedAt := some tc2 }
      let s := { s with store := s.store.saveExecutionState es2 }
      (s, .ok { sessionId := sessionId, output := output, success := true })
    | (s, .error e) =>
      let (tu2, s) := tick s
      let upd : SessionUpdate := { status := some .failed, updatedAt := some tu2 }
      let s := { s with store := s.store.updateSession sessionId upd }
      let (tc2, s) := tick s
      let es2 := { executionState with
        status := SessionStatus.failed, completedAt := some tc2 }
      let s := { s with store := s.store.saveExecutionState es2 }
      (s, .error e)

/-- `WorkflowEngine.executeNode`: write the `running` node state, dispatch
on the node variant, then persist `completed` with the output or `failed`
with the error message and re-throw. -/
def executeNode (ctx : EngineCtx) : Nat → WorkflowNode → String → Value →
    String → Option String → EngineState → EngineState × Except EngineError Value
  | 0, _, _, _, _, _, s => (s, .error .outOfFuel)
  | fuel + 1, node, nodeId, input, sessionId, budgetPoolId, s =>
    let (t, s) := tick s
    let nodeState : NodeExecutionState :=
      { nodeId := nodeId, status := .running, input := some input,
        output := none, error := none, startedAt := some t, completedAt := none }
    let s := { s with store := s.store.updateNodeState sessionId nodeId nodeState }
    let step : EngineState × Except EngineError Value :=
      match node with
      | .group _ nodes edges entryPoint exitPoint =>
        executeGroupNode ctx fuel nodes edges entryPoint exitPoint nodeId input
          sessionId budgetPoolId s
      | .llm maxRetries systemPrompt availableTools requiresHumanReview =>
        executeLLMNode ctx maxRetries systemPrompt availableTools
          requiresHumanReview nodeId input sessionId budgetPoolId s
      | .transform fn => (s, executeTransformNode fn input)
      | .callWorkflow workflowRef inputMapping outputMapping requiresApproval =>
        executeCallWorkflowNode ctx fuel workflowRef inputMapping outputMapping
          requiresApproval nodeId input sessionId budgetPoolId s
      | .stream => (s, .error (.notImplemented "stream"))
      | .generator => (s, .error (.notImplemented "generator"))
    match step with
    | (s, .ok output) =>
      let (t2, s) := tick s
      let ns2 := { nodeState with
        status := NodeStatus.completed, output := some output,
        completedAt := some t2 }
      let s := { s with store := s.store.updateNodeState sessionId nodeId ns2 }
      (s, .ok output)
    | (s, .error e) =>
      let (t2, s) := tick s
      let ns2 := { nodeState with
        status := NodeStatus.failed, error := some e.message,
        completedAt := some t2 }
      let s := { s with store := s.store.updateNodeState sessionId nodeId ns2 }
      (s, .error e)

/-- `WorkflowEngine.executeGroupNode`: start the traversal at the group's
`entryPoint` with the group input. -/
def executeGroupNode (ctx : EngineCtx) : Nat → List (String × WorkflowNode) →
    List WorkflowEdge → String → String → String → Value → String →
    Option String → EngineState → EngineState × Except EngineError Value
  | 0, _, _, _, _, _, _, _, _, s => (s, .error .outOfFuel)
  | fuel + 1, nodes, edges, entryPoint, exitPoint, nodeId, input, sessionId,
      budgetPoolId, s =>
    groupLoop ctx fuel nodes edges exitPoint nodeId sessionId budgetPoolId []
      entryPoint input s

/-- The `while (currentNodeId !== node.exitPoint)` loop of
`executeGroupNode`: stop at the exit sentinel returning the current value;
fail on a revisited id (`Cycle detected`); look the current id up in
`nodes` — a missing id (including an entry sentinel that names no node)
fails with `Node ... not found in group ...`; execute it under its dotted
qualified id; follow the first edge out of the current id, projecting the
configured output field when the output is a non-null object. -/
def groupLoop (ctx : EngineCtx) : Nat → List (String × WorkflowNode) →
    List WorkflowEdge → String → String → String → Option String →
    List String → String → Value → EngineState →
    EngineState × Except EngineError Value
  | 0, _, _, _, _, _, _, _, _, _, s => (s, .error .outOfFuel)
  | fuel + 1, nodes, edges, exitPoint, nodeId, sessionId, budgetPoolId,
      executedNodes, currentNodeId, currentInput, s =>
    if currentNodeId = exitPoint then (s, .ok currentInput)
    else if executedNodes.contains currentNodeId then
      (s, .error (.cycleDetected currentNodeId))
    else
      let executedNodes := currentNodeId :: executedNodes
      match lookupNode nodes currentNodeId with
      | none => (s, .error (.nodeNotFound currentNodeId nodeId))
      | some currentNode =>
        match executeNode ctx fuel currentNode (nodeId ++ "." ++ currentNodeId)
            currentInput sessionId budgetPoolId s with
        | (s, .error e) => (s, .error e)
        | (s, .ok output) =>
          match edges.find? fun e => e.fromId = currentNodeId with
          | none => (s, .error (.noOutgoingEdge currentNodeId))
          | some edge =>
            let nextInput :=
              match edge.previousNodeMessageOutputFieldName with
              | some fieldName =>
                match output with
                | .vObj fields => indexValue (.vObj fields) fieldName
                | .vArr elems => indexValue (.vArr elems) fieldName
                | _ => output
              | none => output
            groupLoop ctx fuel nodes edges exitPoint nodeId sessionId
              budgetPoolId executedNodes edge.toId nextInput s

/-- `executeCallWorkflowNode`: when `requiresApproval` is set, write a
pending `workflow_call` approval, set the session status to
`waiting_for_workflow_approval` and throw; otherwise resolve the
referenced workflow, apply the input mapping, run the referenced workflow
as a fresh nested run (inheriting the budget pool, never the session id),
and apply the output mapping. -/
def executeCallWorkflowNode (ctx : EngineCtx) : Nat → String →
    Option TransformFn → Option TransformFn → Option Bool → String → Value →
    String → Option String → EngineState → EngineState × Except EngineError Value
  | 0, _, _, _, _, _, _, _, _, s => (s, .error .outOfFuel)
  | fuel + 1, workflowRef, inputMapping, outputMapping, requiresApproval,
      nodeId, input, sessionId, budgetPoolId, s =>
    if requiresApproval = some true then
      let (t1, s) := tick s
      let approvalId := mkApprovalId sessionId nodeId t1
      let (t2, s) := tick s
      let approval : ApprovalRequest :=
        { id := approvalId, sessionId := sessionId, nodeId := nodeId,
          type := .workflowCall, status := .pending,
          context := .workflowCall "Approval required for workflow call" workflowRef,
          createdAt := t2 }
      let s := { s with store := s.store.createApprovalRequest approval }
      let upd : SessionUpdate :=
        { status := some .waitingForWorkflowApproval, updatedAt := none }
      let s := { s with store := s.store.updateSession sessionId upd }
      (s, .error (.workflowApprovalRequired approvalId))
    else
      match s.store.getWorkflow workflowRef with
      | none => (s, .error (.workflowNotFound workflowRef))
      | some storedWorkflow =>
        match
          match inputMapping with
          | some m => executeTransform m input []
          | none => .ok input
        with
        | .error e => (s, .error (.transformError e))
        | .ok mappedInput =>
          match executeWorkflow ctx fuel storedWorkflow.definition workflowRef
              mappedInput { sessionId := none, budgetPoolId := budgetPoolId } s with
          | (s, .error e) => (s, .error e)
          | (s, .ok result) =>
            match outputMapping with
            | some m =>
              match executeTransform m result.output [] with
              | .ok v => (s, .ok v)
              | .error e => (s, .error (.transformError e))
            | none => (s, .ok result.output)

end

/-- `WorkflowEngine.resumeSession`: require an approved approval, then
only flip the session status back to `running`. -/
def resumeSession (sessionId approvalId : String) (s : EngineState) :
    EngineState × Except EngineError Unit :=
  match s.store.findApproval approvalId with
  | none => (s, .error (.approvalNotFound approvalId))
  | some approval =>
    if approval.status ≠ .approved then (s, .error (.notApproved approvalId))
    else
      let (t, s) := tick s
      let upd : SessionUpdate := { status := some .running, updatedAt := some t }
      ({ s with store := s.store.updateSession sessionId upd }, .ok ())

/-! ### Concrete fixtures for engine runs -/

/-- An engine with a configured model and empty tool registry whose
provider is never reached in the runs below. -/
def noProviderCtx : EngineCtx :=
  { hasModel := true, tools := [], generate := fun _ => .error "no provider" }

/-- The empty store. -/
def emptyStore : Store :=
  { workflows := [], sessions := [], executionStates := [], nodeStates := [],
    llmExecutions := [], approvals := [], pools := [] }

/-- Fresh engine state at clock 0. -/
def engineState0 : EngineState := { store := emptyStore, clock := 0 }

/-- A workflow whose root group holds a single LLM node requiring human
review; the entry point names that node. -/
def reviewWorkflow : Workflow :=
  { root := .group "Main"
      [("llm", .llm 3 none [] (some true))]
      [{ fromId := "llm", toId := "exit",
         previousNodeMessageOutputFieldName := none,
         messageInputFieldName := none, description := "End" }]
      "llm" "exit" }

/-- The workflow from the package's own doc example (`index.ts`): one LLM
node, edges `entry → llm → exit`, with sentinel `entryPoint: "entry"` that
is not a key of `nodes`. -/
def docEntryWorkflow : Workflow :=
  { root := .group "Main"
      [("llm", .llm 3 (some "You are a helpful assistant") [] none)]
      [{ fromId := "entry", toId := "llm",
         previousNodeMessageOutputFieldName := none,
         messageInputFieldName := none, description := "Start" },
       { fromId := "llm", toId := "exit",
         previousNodeMessageOutputFieldName := none,
         messageInputFieldName := none, description := "End" }]
      "entry" "exit" }

/-- A trivial inner workflow whose root group's entry equals its exit, so
the run succeeds immediately echoing its input. -/
def trivialInnerWorkflow : Workflow := { root := .group "Inner" [] [] "done" "done" }

/-- The stored row for the trivial inner workflow. -/
def trivialInnerStored : StoredWorkflow :=
  { id := "w2", name := "Inner", version := "1.0.0",
    definition := trivialInnerWorkflow, createdAt := 0, updatedAt := 0 }

/-- The enclosing run's session row (generated as `session-0`). -/
def outerSession : Session :=
  { id := "session-0", workflowId := "outer",
    workflowSnapshot := trivialInnerWorkflow, status := .running,
    createdAt := 0, updatedAt := 0 }

/-- Engine state mid-run: the outer session exists, the inner workflow is
stored, and the clock has advanced to 5. -/
def midRunState : EngineState :=
  { store := { emptyStore with
      workflows := [trivialInnerStored], sessions := [outerSession] },
    clock := 5 }

/-- The ids of the session rows, most recent first. -/
def sessionIds (s : EngineState) : List String :=
  s.store.sessions.map fun ses => ses.id

/-- Numeric value of a decimal digit character. -/
def decodeDigit (c : Char) : Nat := c.toNat - 48

/-- State evolution invariant of an engine step: the logical clock does not
decrease, and the session rows only grow by fresh rows whose ids were
generated from clocks at or after the starting clock. -/
def StateExt (s s2 : EngineState) : Prop :=
  s.clock ≤ s2.clock ∧
  ∃ pre, sessionIds s2 = pre ++ sessionIds s ∧
    ∀ i ∈ pre, ∃ t, s.clock ≤ t ∧ i = mkSessionId t

theorem getValueByPath_vUndefined (path : List String) :
    getValueByPath .vUndefined path = .vUndefined := by
  cases path <;> rfl

theorem getValueByPath_append (data : Value) (a b : List String) :
    getValueByPath data (a ++ b) = getValueByPath (getValueByPath data a) b := by
  induction a generalizing data with
  | nil => rfl
  | cons key rest ih =>
    cases data with
    | vNull => simp [getValueByPath, getValueByPath_vUndefined]
    | vUndefined => simp [getValueByPath, getValueByPath_vUndefined]
    | vBool x => exact ih _
    | vInt x => exact ih _
    | vStr x => exact ih _
    | vArr x => exact ih _
    | vObj x => exact ih _

/-- C7: for every `get(path)` transform expression, every data value and
every `basePath`, evaluation never throws — it always returns a value —
and whenever some prefix of the resolved path already leads to a
`null`/absent value (a missing field reads as the absent sentinel), the
overall result is the absent sentinel `undefined` rather than an error. -/
theorem c7_get_never_throws (p : Option (List String)) (data : Value)
    (basePath : List String) :
    (∃ v, executeTransform (.get p) data basePath = .ok v) ∧
    (∀ pre key post, basePath ++ p.getD [] = pre ++ key :: post →
      (getValueByPath data pre = .vNull ∨ getValueByPath data pre = .vUndefined) →
      executeTransform (.get p) data basePath = .ok .vUndefined) := by
  have heval : executeTransform (.get p) data basePath
      = .ok (getValueByPath data (basePath ++ p.getD [])) := by
    simp [executeTransform]
  refine ⟨⟨_, heval⟩, ?_⟩
  intro pre key post hsplit hnull
  rw [heval, hsplit, getValueByPath_append]
  rcases hnull with hn | hn <;> rw [hn] <;> simp [getValueByPath, getValueByPath_vUndefined]

/-- Witness for C7 at a concrete input: the path `["a","b","c"]` traverses
the `null` stored under `"a"`, and evaluation returns the absent sentinel. -/
theorem c7_get_never_throws_witness :
    executeTransform (.get (some ["a", "b", "c"]))
      (.vObj [("a", .vNull)]) [] = .ok .vUndefined := by
  exact (c7_get_never_throws (some ["a", "b", "c"]) (.vObj [("a", .vNull)]) []).2
    ["a"] "b" ["c"] rfl (Or.inl rfl)

/-- C8 counterexample: the scrutinee is an object with tag `"x"`, and no
branch key equals `"x"` — the claim requires failure with
`NoMatchingBranch`, but evaluation falls through to the string form
`"[object Object]"` and returns that branch's result instead. -/
theorem c8_counterexample :
    executeTransform (.ifExpr none [("[object Object]", .const (.vInt 1))])
      (.vObj [("tag", .vStr "x")]) [] = .ok (.vInt 1)
    ∧ lookupFn [("[object Object]", TransformFn.const (.vInt 1))] "x" = none := by
  constructor
  · simp [executeTransform, getValueByPath, ifTagBranch, lookupField, lookupFn, jsToString]
  · simp [lookupFn]

/-- C8 (amended): for an `if(path?, branches)` whose scrutinee is an object
with a `tag` field, the evaluator dispatches on the string form of the tag
when it is a branch key; when the tag matches no branch it falls back to
dispatching on the string form of the whole value (`"[object Object]"`),
and only fails with `NoMatchingBranch` when that also matches no branch. -/
theorem c8_if_tagged_dispatch (path : Option (List String))
    (branches : List (String × TransformFn)) (data : Value)
    (basePath : List String) (fields : List (String × Value)) (tagv : Value)
    (hv : getValueByPath data (basePath ++ path.getD []) = .vObj fields)
    (ht : lookupField fields "tag" = some tagv) :
    executeTransform (.ifExpr path branches) data basePath =
      match lookupFn branches (jsToString tagv) with
      | some b => executeTransform b data basePath
      | none =>
        match lookupFn branches "[object Object]" with
        | some b => executeTransform b data basePath
        | none => .error (.noMatchingBranch "[object Object]") := by
  have htag : ifTagBranch branches (getValueByPath data (basePath ++ path.getD []))
      = lookupFn branches (jsToString tagv) := by
    rw [hv]; simp [ifTagBranch, ht]
  have hstr : jsToString (getValueByPath data (basePath ++ path.getD []))
      = "[object Object]" := by rw [hv]; rfl
  cases hb : lookupFn branches (jsToString tagv) with
  | some b =>
    simp only [hb, executeTransform]
    split
    · rename_i b' heq
      rw [htag, hb] at heq
      injection heq with h
      rw [h]
    · rename_i heq
      rw [htag, hb] at heq
      simp at heq
  | none =>
    simp only [hb]
    cases hb2 : lookupFn branches "[object Object]" with
    | some b =>
      simp only [hb2, executeTransform]
      split
      · rename_i b' heq
        rw [htag, hb] at heq
        simp at heq
      · rename_i heq
        split
        · rename_i b' heq2
          rw [hstr, hb2] at heq2
          injection heq2 with h
          rw [h]
        · rename_i heq2
          rw [hstr, hb2] at heq2
          simp at heq2
    | none =>
      simp only [hb2, executeTransform]
      split
      · rename_i b' heq
        rw [htag, hb] at heq
        simp at heq
      · rename_i heq
        split
        · rename_i b' heq2
          rw [hstr, hb2] at heq2
          simp at heq2
        · rw [hstr]

/-- Witness for C8 (amended) at a concrete input: tag `"a"` is a branch
key, so that branch is taken. -/
theorem c8_if_tagged_dispatch_witness :
    executeTransform (.ifExpr none [("a", .const (.vInt 7))])
      (.vObj [("tag", .vStr "a")]) [] = .ok (.vInt 7) := by
  have h := c8_if_tagged_dispatch none [("a", .const (.vInt 7))]
    (.vObj [("tag", .vStr "a")]) [] [("tag", .vStr "a")] (.vStr "a") rfl rfl
  rw [h]
  simp [lookupFn, jsToString, executeTransform]

/-! ### Budget pool lemmas -/

/-- Pool ids are pairwise distinct (the store's primary-key constraint). -/
def PoolsNodup (pools : List BudgetPool) : Prop :=
  (pools.map fun p => p.id).Nodup

theorem ids_updateBudgetPool (pools : List BudgetPool) (i : String)
    (upd : BudgetPool → BudgetPool) (hid : ∀ p, (upd p).id = p.id) :
    (updateBudgetPool pools i upd).map (fun p => p.id)
      = pools.map fun p => p.id := by
  unfold updateBudgetPool
  rw [List.map_map]
  apply List.map_congr_left
  intro p _
  by_cases hp : p.id = i <;> simp [hp, hid]

theorem getBudgetPool_mem {pools : List BudgetPool} {i : String}
    {pool : BudgetPool} (h : getBudgetPool pools i = some pool) :
    pool ∈ pools ∧ pool.id = i := by
  refine ⟨List.mem_of_find?_eq_some h, ?_⟩
  have := List.find?_some h
  simpa using this

theorem getBudgetPool_eq_none {pools : List BudgetPool} {i : String}
    (h : getBudgetPool pools i = none) : ∀ p ∈ pools, p.id ≠ i := by
  intro p hp
  have := List.find?_eq_none.mp h p hp
  simpa using this

theorem getBudgetPool_unique {i : String} :
    ∀ {pools : List BudgetPool} {pool p : BudgetPool}, PoolsNodup pools →
      getBudgetPool pools i = some pool → p ∈ pools → p.id = i → p = pool := by
  intro pools
  induction pools with
  | nil => intro pool p _ _ hp; cases hp
  | cons q rest ih =>
    intro pool p hnd hfind hp hpi
    unfold PoolsNodup at hnd
    rw [List.map_cons, List.nodup_cons] at hnd
    by_cases hq : q.id = i
    · have hfind' : getBudgetPool (q :: rest) i = some q := by
        unfold getBudgetPool
        exact List.find?_cons_of_pos _ (by simp [hq])
      rw [hfind'] at hfind
      injection hfind with hpool
      rcases List.mem_cons.mp hp with h | h
      · rw [h, hpool]
      · exfalso
        apply hnd.1
        have hmem : p.id ∈ rest.map fun r => r.id :=
          List.mem_map_of_mem (fun r => r.id) h
        rw [hpi, ← hq] at hmem
        exact hmem
    · have hfind' : getBudgetPool (q :: rest) i = getBudgetPool rest i := by
        unfold getBudgetPool
        exact List.find?_cons_of_neg _ (by simp [hq])
      rw [hfind'] at hfind
      rcases List.mem_cons.mp hp with h | h
      · exact absurd (h ▸ hpi) hq
      · exact ih hnd.2 hfind h hpi

theorem getBudgetPool_updateBudgetPool_self (i : String)
    (upd : BudgetPool → BudgetPool) (hid : ∀ p, (upd p).id = p.id) :
    ∀ pools : List BudgetPool,
      getBudgetPool (updateBudgetPool pools i upd) i
        = (getBudgetPool pools i).map upd := by
  intro pools
  induction pools with
  | nil => rfl
  | cons q rest ih =>
    show getBudgetPool ((if q.id = i then upd q else q) :: updateBudgetPool rest i upd) i = _
    by_cases hq : q.id = i
    · rw [if_pos hq]
      unfold getBudgetPool
      rw [List.find?_cons_of_pos _ (by simp [hid, hq]),
        List.find?_cons_of_pos _ (by simp [hq])]
      rfl
    · rw [if_neg hq]
      unfold getBudgetPool
      rw [List.find?_cons_of_neg _ (by simp [hid, hq]),
        List.find?_cons_of_neg _ (by simp [hq])]
      exact ih

theorem getBudgetPool_updateBudgetPool_other (i j : String)
    (upd : BudgetPool → BudgetPool) (hid : ∀ p, (upd p).id = p.id)
    (hij : j ≠ i) :
    ∀ pools : List BudgetPool,
      getBudgetPool (updateBudgetPool pools i upd) j = getBudgetPool pools j := by
  intro pools
  induction pools with
  | nil => rfl
  | cons q rest ih =>
    show getBudgetPool ((if q.id = i then upd q else q) :: updateBudgetPool rest i upd) j = _
    by_cases hq : q.id = i
    · rw [if_pos hq]
      unfold getBudgetPool
      rw [List.find?_cons_of_neg _ (by simp [hid, hq]; exact fun hh => hij hh.symm),
        List.find?_cons_of_neg _ (by simp [hq]; exact fun hh => hij hh.symm)]
      exact ih
    · rw [if_neg hq]
      by_cases hqj : q.id = j
      · unfold getBudgetPool
        rw [List.find?_cons_of_pos _ (by simp [hqj]),
          List.find?_cons_of_pos _ (by simp [hqj])]
      · unfold getBudgetPool
        rw [List.find?_cons_of_neg _ (by simp [hqj]),
          List.find?_cons_of_neg _ (by simp [hqj])]
        exact ih

theorem mem_updateBudgetPool_of_found {pools : List BudgetPool} {i : String}
    {upd : BudgetPool → BudgetPool} {pool : BudgetPool}
    (hnd : PoolsNodup pools) (hfind : getBudgetPool pools i = some pool) :
    ∀ p' ∈ updateBudgetPool pools i upd, p' ∈ pools ∨ p' = upd pool := by
  intro p' hp'
  unfold updateBudgetPool at hp'
  rcases List.mem_map.mp hp' with ⟨p, hp, heq⟩
  by_cases hpi : p.id = i
  · right
    have hpp : p = pool := getBudgetPool_unique hnd hfind hp hpi
    rw [← heq, if_pos hpi, hpp]
  · left
    rw [← heq, if_neg hpi]
    exact hp

theorem poolsNodup_updateBudgetPool {pools : List BudgetPool} {i : String}
    {upd : BudgetPool → BudgetPool} (hid : ∀ p, (upd p).id = p.id)
    (hnd : PoolsNodup pools) : PoolsNodup (updateBudgetPool pools i upd) := by
  unfold PoolsNodup
  rw [ids_updateBudgetPool pools i upd hid]
  exact hnd

/-- Accounting identity `usedBudget + remainingBudget = totalBudget` for
every pool row. -/
def SumInv (pools : List BudgetPool) : Prop :=
  ∀ p ∈ pools, p.usedBudget + p.remainingBudget = p.totalBudget

/-- Active pools have strictly positive remaining budget (equivalently:
a depleted, not manually suspended pool is `exhausted`). -/
def ActiveInv (pools : List BudgetPool) : Prop :=
  ∀ p ∈ pools, p.status = .active → p.remainingBudget > 0

theorem consumeBudget_preserves_sumInv (fuel : Nat) :
    ∀ (pools : List BudgetPool) (poolId : String) (amount : Int),
      PoolsNodup pools → SumInv pools →
      PoolsNodup (consumeBudget fuel pools poolId amount).1 ∧
        SumInv (consumeBudget fuel pools poolId amount).1 := by
  induction fuel with
  | zero => intro pools _ _ hnd hs; exact ⟨hnd, hs⟩
  | succ fuel ih =>
    intro pools poolId amount hnd hs
    unfold consumeBudget
    cases hfind : getBudgetPool pools poolId with
    | none => exact ⟨hnd, hs⟩
    | some pool =>
      simp only
      by_cases h1 : pool.status ≠ PoolStatus.active
      case pos => rw [if_pos h1]; exact ⟨hnd, hs⟩
      case neg =>
      rw [if_neg h1]
      by_cases h2 : pool.remainingBudget < amount
      case pos => rw [if_pos h2]; exact ⟨hnd, hs⟩
      case neg =>
      have hs1 : SumInv (updateBudgetPool pools poolId (consumeUpd pool amount)) := by
        intro p' hp'
        rcases mem_updateBudgetPool_of_found hnd hfind _ hp' with hold | hupd
        · exact hs p' hold
        · have hpool := hs pool (getBudgetPool_mem hfind).1
          rw [hupd]
          simp only [consumeUpd]
          omega
      rw [if_neg h2]
      cases hpar : pool.parentPoolId with
      | some parentId =>
        exact ih _ parentId amount (poolsNodup_updateBudgetPool (fun _ => rfl) hnd) hs1
      | none => exact ⟨poolsNodup_updateBudgetPool (fun _ => rfl) hnd, hs1⟩

theorem increaseBudget_preserves_sumInv (pools : List BudgetPool)
    (poolId : String) (amount : Int) (hnd : PoolsNodup pools)
    (hs : SumInv pools) :
    PoolsNodup (increaseBudget pools poolId amount).1 ∧
      SumInv (increaseBudget pools poolId amount).1 := by
  unfold increaseBudget
  cases hfind : getBudgetPool pools poolId with
  | none => exact ⟨hnd, hs⟩
  | some pool =>
    simp only
    refine ⟨poolsNodup_updateBudgetPool (fun _ => rfl) hnd, ?_⟩
    intro p' hp'
    rcases mem_updateBudgetPool_of_found hnd hfind _ hp' with hold | hupd
    · exact hs p' hold
    · have hpool := hs pool (getBudgetPool_mem hfind).1
      rw [hupd]
      simp only [increaseUpd]
      omega

theorem runBudgetOp_preserves_sumInv (pools : List BudgetPool)
    (op : BudgetOp) (hnd : PoolsNodup pools) (hs : SumInv pools) :
    PoolsNodup (runBudgetOp pools op) ∧ SumInv (runBudgetOp pools op) := by
  cases op with
  | create id total parent =>
    simp only [runBudgetOp, createPool]
    cases hfind : getBudgetPool pools id with
    | some _ => exact ⟨hnd, hs⟩
    | none =>
      simp only
      constructor
      · unfold PoolsNodup
        rw [List.map_cons, List.nodup_cons]
        refine ⟨?_, hnd⟩
        intro hmem
        rcases List.mem_map.mp hmem with ⟨p, hp, hpid⟩
        exact getBudgetPool_eq_none hfind p hp hpid
      · intro p hp
        rcases List.mem_cons.mp hp with h | h
        · rw [h]; simp
        · exact hs p h
  | consume id amount =>
    exact consumeBudget_preserves_sumInv _ pools id amount hnd hs
  | increase id amount =>
    exact increaseBudget_preserves_sumInv pools id amount hnd hs
  | suspendPool id =>
    refine ⟨poolsNodup_updateBudgetPool (fun _ => rfl) hnd, ?_⟩
    intro p' hp'
    simp only [runBudgetOp, suspendPool, updateBudgetPool] at hp'
    rcases List.mem_map.mp hp' with ⟨p, hp, heq⟩
    have := hs p hp
    rw [← heq]
    by_cases hpi : p.id = id <;> simp [hpi] <;> omega
  | reactivate id =>
    simp only [runBudgetOp, reactivatePool]
    cases hfind : getBudgetPool pools id with
    | none => exact ⟨hnd, hs⟩
    | some pool =>
      simp only
      split_ifs with h1
      · refine ⟨poolsNodup_updateBudgetPool (fun _ => rfl) hnd, ?_⟩
        intro p' hp'
        simp only [updateBudgetPool] at hp'
        rcases List.mem_map.mp hp' with ⟨p, hp, heq⟩
        have := hs p hp
        rw [← heq]
        by_cases hpi : p.id = id <;> simp [hpi] <;> omega
      · exact ⟨hnd, hs⟩

theorem runBudgetOps_sumInv (ops : List BudgetOp) :
    PoolsNodup (runBudgetOps ops) ∧ SumInv (runBudgetOps ops) := by
  unfold runBudgetOps
  have hgen : ∀ (ops : List BudgetOp) (pools : List BudgetPool),
      PoolsNodup pools → SumInv pools →
      PoolsNodup (ops.foldl runBudgetOp pools) ∧
        SumInv (ops.foldl runBudgetOp pools) := by
    intro ops
    induction ops with
    | nil => intro pools hnd hs; exact ⟨hnd, hs⟩
    | cons op rest ih =>
      intro pools hnd hs
      have := runBudgetOp_preserves_sumInv pools op hnd hs
      exact ih _ this.1 this.2
  exact hgen ops [] (by simp [PoolsNodup]) (by intro p hp; cases hp)

theorem consumeBudget_preserves_activeInv (fuel : Nat) :
    ∀ (pools : List BudgetPool) (poolId : String) (amount : Int),
      ActiveInv pools → ActiveInv (consumeBudget fuel pools poolId amount).1 := by
  induction fuel with
  | zero => intro pools _ _ ha; exact ha
  | succ fuel ih =>
    intro pools poolId amount ha
    unfold consumeBudget
    cases hfind : getBudgetPool pools poolId with
    | none => exact ha
    | some pool =>
      simp only
      by_cases h1 : pool.status ≠ PoolStatus.active
      case pos => rw [if_pos h1]; exact ha
      case neg =>
      rw [if_neg h1]
      by_cases h2 : pool.remainingBudget < amount
      case pos => rw [if_pos h2]; exact ha
      case neg =>
      have ha1 : ActiveInv (updateBudgetPool pools poolId (consumeUpd pool amount)) := by
        intro p' hp'
        simp only [updateBudgetPool] at hp'
        rcases List.mem_map.mp hp' with ⟨p, hp, heq⟩
        by_cases hpi : p.id = poolId
        · rw [← heq, if_pos hpi]
          intro hst
          simp only [consumeUpd] at hst ⊢
          by_cases hz : pool.remainingBudget - amount ≤ 0
          · rw [if_pos hz] at hst; cases hst
          · omega
        · rw [← heq, if_neg hpi]
          exact ha p hp
      rw [if_neg h2]
      cases hpar : pool.parentPoolId with
      | some parentId => exact ih _ parentId amount ha1
      | none => exact ha1

theorem increaseBudget_preserves_activeInv (pools : List BudgetPool)
    (poolId : String) (amount : Int) (hamount : 0 ≤ amount)
    (ha : ActiveInv pools) :
    ActiveInv (increaseBudget pools poolId amount).1 := by
  unfold increaseBudget
  cases hfind : getBudgetPool pools poolId with
  | none => exact ha
  | some pool =>
    simp only
    intro p' hp'
    simp only [updateBudgetPool] at hp'
    rcases List.mem_map.mp hp' with ⟨p, hp, heq⟩
    by_cases hpi : p.id = poolId
    · rw [← heq, if_pos hpi]
      intro hst
      simp only [increaseUpd] at hst ⊢
      by_cases hz : pool.remainingBudget + amount > 0
      · omega
      · rw [if_neg hz] at hst
        have := ha pool (getBudgetPool_mem hfind).1 hst
        omega
    · rw [← heq, if_neg hpi]
      exact ha p hp

theorem runBudgetOp_preserves_activeInv (pools : List BudgetPool)
    (op : BudgetOp) (hop : op.wf = true) (hnd : PoolsNodup pools)
    (ha : ActiveInv pools) : ActiveInv (runBudgetOp pools op) := by
  cases op with
  | create id total parent =>
    have htotal : (0 : Int) < total := by simpa [BudgetOp.wf] using hop
    simp only [runBudgetOp, createPool]
    cases hfind : getBudgetPool pools id with
    | some _ => exact ha
    | none =>
      simp only
      intro p hp
      rcases List.mem_cons.mp hp with h | h
      · rw [h]; intro _; simpa using htotal
      · exact ha p h
  | consume id amount =>
    exact consumeBudget_preserves_activeInv _ pools id amount ha
  | increase id amount =>
    have hamount : (0 : Int) ≤ amount := by simpa [BudgetOp.wf] using hop
    exact increaseBudget_preserves_activeInv pools id amount hamount ha
  | suspendPool id =>
    intro p' hp'
    simp only [runBudgetOp, suspendPool, updateBudgetPool] at hp'
    rcases List.mem_map.mp hp' with ⟨p, hp, heq⟩
    by_cases hpi : p.id = id
    · rw [← heq, if_pos hpi]
      intro hst
      cases hst
    · rw [← heq, if_neg hpi]
      exact ha p hp
  | reactivate id =>
    simp only [runBudgetOp, reactivatePool]
    cases hfind : getBudgetPool pools id with
    | none => exact ha
    | some pool =>
      simp only
      split_ifs with h1
      · intro p' hp'
        simp only [updateBudgetPool] at hp'
        rcases List.mem_map.mp hp' with ⟨p, hp, heq⟩
        by_cases hpi : p.id = id
        · rw [← heq, if_pos hpi]
          intro _
          simp only
          have hpp : p = pool := getBudgetPool_unique hnd hfind hp hpi
          rw [hpp]
          exact h1
        · rw [← heq, if_neg hpi]
          exact ha p hp
      · exact ha

theorem runBudgetOp_preserves_poolsNodup (pools : List BudgetPool)
    (op : BudgetOp) (hnd : PoolsNodup pools) (hs : SumInv pools) :
    PoolsNodup (runBudgetOp pools op) :=
  (runBudgetOp_preserves_sumInv pools op hnd hs).1

theorem runBudgetOps_activeInv (ops : List BudgetOp)
    (hwf : ops.all BudgetOp.wf = true) : ActiveInv (runBudgetOps ops) := by
  unfold runBudgetOps
  have hgen : ∀ (ops : List BudgetOp), ops.all BudgetOp.wf = true →
      ∀ (pools : List BudgetPool),
      PoolsNodup pools → SumInv pools → ActiveInv pools →
      ActiveInv (ops.foldl runBudgetOp pools) := by
    intro ops
    induction ops with
    | nil => intro _ pools _ _ ha; exact ha
    | cons op rest ih =>
      intro hwf pools hnd hs ha
      rw [List.all_cons, Bool.and_eq_true] at hwf
      have hstep := runBudgetOp_preserves_sumInv pools op hnd hs
      exact ih hwf.2 _ hstep.1 hstep.2
        (runBudgetOp_preserves_activeInv pools op hwf.1 hnd ha)
  exact hgen ops hwf [] (by simp [PoolsNodup]) (by intro p hp; cases hp)
    (by intro p hp; cases hp)

theorem parentChain_updateBudgetPool (i : String)
    (upd : BudgetPool → BudgetPool) (hid : ∀ p, (upd p).id = p.id)
    (hpar : ∀ p, (upd p).parentPoolId = p.parentPoolId) :
    ∀ (fuel : Nat) (x : Option String) (pools : List BudgetPool),
      parentChain (updateBudgetPool pools i upd) fuel x
        = parentChain pools fuel x := by
  intro fuel
  induction fuel with
  | zero => intro x pools; cases x <;> rfl
  | succ fuel ih =>
    intro x pools
    cases x with
    | none => rfl
    | some id =>
      simp only [parentChain]
      congr 1
      by_cases hii : id = i
      · subst hii
        rw [getBudgetPool_updateBudgetPool_self id upd hid pools]
        cases hq : getBudgetPool pools id with
        | none => rfl
        | some p =>
          show parentChain (updateBudgetPool pools id upd) fuel (upd p).parentPoolId = _
          rw [hpar]
          exact ih _ _
      · rw [getBudgetPool_updateBudgetPool_other i id upd hid hii pools]
        cases hq : getBudgetPool pools id with
        | none => rfl
        | some p => exact ih _ _

theorem consumeBudget_untouched (fuel : Nat) :
    ∀ (pools : List BudgetPool) (q : String) (n : Int) (i : String),
      i ∉ parentChain pools fuel (some q) →
      getBudgetPool (consumeBudget fuel pools q n).1 i = getBudgetPool pools i := by
  induction fuel with
  | zero => intro pools q n i _; rfl
  | succ fuel ih =>
    intro pools q n i hi
    simp only [parentChain, List.mem_cons, not_or] at hi
    obtain ⟨hiq, hrest⟩ := hi
    unfold consumeBudget
    cases hfind : getBudgetPool pools q with
    | none => rfl
    | some pool =>
      simp only
      by_cases h1 : pool.status ≠ PoolStatus.active
      case pos => rw [if_pos h1]
      case neg =>
      rw [if_neg h1]
      by_cases h2 : pool.remainingBudget < n
      case pos => rw [if_pos h2]
      case neg =>
      rw [if_neg h2]
      rw [hfind] at hrest
      have hrest' : i ∉ parentChain pools fuel pool.parentPoolId := hrest
      have huntouched :
          getBudgetPool (updateBudgetPool pools q (consumeUpd pool n)) i
            = getBudgetPool pools i :=
        getBudgetPool_updateBudgetPool_other q i (consumeUpd pool n)
          (fun _ => rfl) hiq pools
      cases hpp : pool.parentPoolId with
      | none => exact huntouched
      | some parentId =>
        rw [hpp] at hrest'
        have hchain : i ∉ parentChain
            (updateBudgetPool pools q (consumeUpd pool n)) fuel (some parentId) := by
          rw [parentChain_updateBudgetPool q (consumeUpd pool n)
            (fun _ => rfl) (fun _ => rfl)]
          exact hrest'
        show getBudgetPool (consumeBudget fuel
          (updateBudgetPool pools q (consumeUpd pool n)) parentId n).1 i = _
        rw [ih _ parentId n i hchain]
        exact huntouched

theorem consumeBudget_zero_totals (fuel : Nat) :
    ∀ (pools : List BudgetPool) (q i : String),
      (getBudgetPool (consumeBudget fuel pools q 0).1 i).map
          (fun p => (p.usedBudget, p.remainingBudget, p.totalBudget))
        = (getBudgetPool pools i).map
          (fun p => (p.usedBudget, p.remainingBudget, p.totalBudget)) := by
  induction fuel with
  | zero => intro pools q i; rfl
  | succ fuel ih =>
    intro pools q i
    unfold consumeBudget
    cases hfind : getBudgetPool pools q with
    | none => rfl
    | some pool =>
      simp only
      by_cases h1 : pool.status ≠ PoolStatus.active
      case pos => rw [if_pos h1]
      case neg =>
      rw [if_neg h1]
      by_cases h2 : pool.remainingBudget < 0
      case pos => rw [if_pos h2]
      case neg =>
      rw [if_neg h2]
      have hstep : (getBudgetPool
            (updateBudgetPool pools q (consumeUpd pool 0)) i).map
            (fun p => (p.usedBudget, p.remainingBudget, p.totalBudget))
          = (getBudgetPool pools i).map
            (fun p => (p.usedBudget, p.remainingBudget, p.totalBudget)) := by
        by_cases hiq : i = q
        · subst hiq
          rw [getBudgetPool_updateBudgetPool_self i (consumeUpd pool 0)
            (fun _ => rfl) pools, hfind]
          show some (((consumeUpd pool 0) pool).usedBudget,
            ((consumeUpd pool 0) pool).remainingBudget,
            ((consumeUpd pool 0) pool).totalBudget) = _
          simp [consumeUpd]
        · rw [getBudgetPool_updateBudgetPool_other q i (consumeUpd pool 0)
            (fun _ => rfl) hiq pools]
      cases hpp : pool.parentPoolId with
      | none => exact hstep
      | some parentId =>
        show ((getBudgetPool (consumeBudget fuel
          (updateBudgetPool pools q (consumeUpd pool 0)) parentId 0).1 i).map
            (fun p => (p.usedBudget, p.remainingBudget, p.totalBudget))) = _
        rw [ih _ parentId i]
        exact hstep

/-! ### C3, C4, C5 -/

/-- C3: Scenario C — pools `parent(total=100)` and
`child(total=50, parent=parent)`.  `consume(child, 30)` succeeds leaving
`child.remaining = 20` (used 30) and `parent.remaining = 70` (used 30,
consumption propagated to the parent); the subsequent `consume(child, 25)`
throws BudgetExhausted (`Insufficient budget`) and leaves both pools'
`usedBudget` and `remainingBudget` (indeed both whole rows) unchanged. -/
theorem c3_budget_consumption_scenario :
    (consumeBudget 3 (runBudgetOps
        [.create "parent" 100 none, .create "child" 50 (some "parent")])
        "child" 30).2 = .ok () ∧
    getBudgetPool (consumeBudget 3 (runBudgetOps
        [.create "parent" 100 none, .create "child" 50 (some "parent")])
        "child" 30).1 "child" = some
      { id := "child", parentPoolId := some "parent", totalBudget := 50,
        usedBudget := 30, remainingBudget := 20, status := .active, createdAt := 0 } ∧
    getBudgetPool (consumeBudget 3 (runBudgetOps
        [.create "parent" 100 none, .create "child" 50 (some "parent")])
        "child" 30).1 "parent" = some
      { id := "parent", parentPoolId := none, totalBudget := 100,
        usedBudget := 30, remainingBudget := 70, status := .active, createdAt := 0 } ∧
    (consumeBudget 3 (consumeBudget 3 (runBudgetOps
        [.create "parent" 100 none, .create "child" 50 (some "parent")])
        "child" 30).1 "child" 25).2 = .error (.insufficientBudget "child") ∧
    (consumeBudget 3 (consumeBudget 3 (runBudgetOps
        [.create "parent" 100 none, .create "child" 50 (some "parent")])
        "child" 30).1 "child" 25).1
      = (consumeBudget 3 (runBudgetOps
        [.create "parent" 100 none, .create "child" 50 (some "parent")])
        "child" 30).1 := by
  decide

/-- C4: after any single-threaded sequence of budget-manager operations
starting from creation, every pool row satisfies
`usedBudget + remainingBudget = totalBudget`. -/
theorem c4_budget_sum_invariant (ops : List BudgetOp) (pool : BudgetPool)
    (hmem : pool ∈ runBudgetOps ops) :
    pool.usedBudget + pool.remainingBudget = pool.totalBudget :=
  (runBudgetOps_sumInv ops).2 pool hmem

/-- Witness for C4 at a concrete operation sequence. -/
theorem c4_budget_sum_invariant_witness :
    ({ id := "a", parentPoolId := none, totalBudget := 5, usedBudget := 2,
       remainingBudget := 3, status := .active, createdAt := 0 } : BudgetPool)
      ∈ runBudgetOps [.create "a" 5 none, .consume "a" 2] ∧
    ({ id := "a", parentPoolId := none, totalBudget := 5, usedBudget := 2,
       remainingBudget := 3, status := .active, createdAt := 0 } : BudgetPool).usedBudget
      + ({ id := "a", parentPoolId := none, totalBudget := 5, usedBudget := 2,
           remainingBudget := 3, status := .active, createdAt := 0 } : BudgetPool).remainingBudget
      = ({ id := "a", parentPoolId := none, totalBudget := 5, usedBudget := 2,
           remainingBudget := 3, status := .active, createdAt := 0 } : BudgetPool).totalBudget :=
  ⟨by decide, c4_budget_sum_invariant [.create "a" 5 none, .consume "a" 2] _ (by decide)⟩

/-- C5 counterexample: `createPool` always sets status `active`, so
creating a pool with `totalBudget = 0` yields a pool with
`remainingBudget ≤ 0`, not manually suspended, whose status is `active`
rather than `exhausted`. -/
theorem c5_counterexample :
    ∃ pool ∈ runBudgetOps [.create "p" 0 none],
      pool.remainingBudget ≤ 0 ∧ pool.status ≠ .suspended ∧
        pool.status ≠ .exhausted := by
  decide

/-- C5 (amended): provided every `createPool` in the sequence has a
positive `totalBudget` and every `increaseBudget` amount is nonnegative,
every reachable pool with `remainingBudget ≤ 0` that is not manually
suspended has status `exhausted` (in particular after every
`consumeBudget`). -/
theorem c5_depleted_is_exhausted (ops : List BudgetOp)
    (hwf : ops.all BudgetOp.wf = true) (pool : BudgetPool)
    (hmem : pool ∈ runBudgetOps ops) (hdep : pool.remainingBudget ≤ 0)
    (hns : pool.status ≠ .suspended) : pool.status = .exhausted := by
  cases hst : pool.status with
  | active =>
    have := runBudgetOps_activeInv ops hwf pool hmem hst
    omega
  | exhausted => rfl
  | suspended => exact absurd hst hns

/-- C6 counterexample: for the active pool `p` with `remainingBudget = 0`
and `n = 0` (so `remainingBudget ≥ n`), `consume(p, 0)` succeeds and sets
status `exhausted`, but the subsequent `increase(p, 0)` leaves the status
`exhausted` instead of setting it back to `active`. -/
theorem c6_counterexample :
    (consumeBudget 2 (runBudgetOps [.create "p" 0 none]) "p" 0).2 = .ok () ∧
    (getBudgetPool (consumeBudget 2 (runBudgetOps [.create "p" 0 none])
        "p" 0).1 "p").map BudgetPool.status = some .exhausted ∧
    (getBudgetPool (increaseBudget (consumeBudget 2
        (runBudgetOps [.create "p" 0 none]) "p" 0).1 "p" 0).1 "p").map
      BudgetPool.status = some .exhausted := by
  decide

/-- C6 (amended): `consume(p, 0)` leaves `usedBudget`, `remainingBudget`
and `totalBudget` of an active pool unchanged; and for an active pool with
`remainingBudget ≥ n`, `consume(p, n)` followed by `increase(p, n)`
restores `remainingBudget`, and when `n > 0` the pool ends `active` (in
particular an `exhausted` status set by that consume is cleared).  The
pool's parent chain is assumed not to loop back to `p` (cycles are
prohibited by construction). -/
theorem c6_consume_zero_and_restore :
    (∀ (fuel : Nat) (pools : List BudgetPool) (p : String) (pool : BudgetPool),
      getBudgetPool pools p = some pool → pool.status = .active →
      (getBudgetPool (consumeBudget fuel pools p 0).1 p).map
          (fun q => (q.usedBudget, q.remainingBudget, q.totalBudget))
        = some (pool.usedBudget, pool.remainingBudget, pool.totalBudget)) ∧
    (∀ (fuel : Nat) (pools : List BudgetPool) (p : String) (pool : BudgetPool)
        (n : Int),
      getBudgetPool pools p = some pool → pool.status = .active →
      n ≤ pool.remainingBudget → 0 < n →
      p ∉ parentChain pools fuel pool.parentPoolId →
      (getBudgetPool (increaseBudget
          (consumeBudget (fuel + 1) pools p n).1 p n).1 p).map
          (fun q => (q.remainingBudget, q.status))
        = some (pool.remainingBudget, PoolStatus.active)) := by
  constructor
  · intro fuel pools p pool hfind hact
    rw [consumeBudget_zero_totals fuel pools p p, hfind]
    rfl
  · intro fuel pools p pool n hfind hact hn hpos hchain
    have hst1 : getBudgetPool (consumeBudget (fuel + 1) pools p n).1 p
        = some (consumeUpd pool n pool) := by
      unfold consumeBudget
      rw [hfind]
      simp only
      rw [if_neg (by simp [hact]), if_neg (by omega)]
      cases hpp : pool.parentPoolId with
      | none =>
        show getBudgetPool (updateBudgetPool pools p (consumeUpd pool n)) p = _
        rw [getBudgetPool_updateBudgetPool_self p (consumeUpd pool n)
          (fun _ => rfl) pools, hfind]
        rfl
      | some parentId =>
        rw [hpp] at hchain
        show getBudgetPool (consumeBudget fuel
          (updateBudgetPool pools p (consumeUpd pool n)) parentId n).1 p = _
        rw [consumeBudget_untouched fuel _ parentId n p
          (by
            rw [parentChain_updateBudgetPool p (consumeUpd pool n)
              (fun _ => rfl) (fun _ => rfl)]
            exact hchain)]
        rw [getBudgetPool_updateBudgetPool_self p (consumeUpd pool n)
          (fun _ => rfl) pools, hfind]
        rfl
    have hst2 : getBudgetPool (increaseBudget
        (consumeBudget (fuel + 1) pools p n).1 p n).1 p
        = some (increaseUpd (consumeUpd pool n pool) n (consumeUpd pool n pool)) := by
      unfold increaseBudget
      rw [hst1]
      simp only
      rw [getBudgetPool_updateBudgetPool_self p
        (increaseUpd (consumeUpd pool n pool) n) (fun _ => rfl) _, hst1]
      rfl
    rw [hst2]
    simp only [increaseUpd, consumeUpd, Option.map_some]
    rw [if_pos (by omega)]
    have harith : pool.remainingBudget - n + n = pool.remainingBudget := by omega
    rw [harith]
    rfl

/-- Witness for C6 (amended) on the Scenario C pools. -/
theorem c6_consume_zero_and_restore_witness :
    (getBudgetPool (consumeBudget 2 (runBudgetOps
        [.create "parent" 100 none, .create "child" 50 (some "parent")])
        "child" 0).1 "child").map
        (fun q => (q.usedBudget, q.remainingBudget, q.totalBudget))
      = some (0, 50, 50) ∧
    (getBudgetPool (increaseBudget (consumeBudget 3 (runBudgetOps
        [.create "parent" 100 none, .create "child" 50 (some "parent")])
        "child" 5).1 "child" 5).1 "child").map
        (fun q => (q.remainingBudget, q.status))
      = some (50, PoolStatus.active) :=
  ⟨c6_consume_zero_and_restore.1 2 _ "child"
      { id := "child", parentPoolId := some "parent", totalBudget := 50,
        usedBudget := 0, remainingBudget := 50, status := .active, createdAt := 0 }
      (by decide) (by decide),
    c6_consume_zero_and_restore.2 2 _ "child"
      { id := "child", parentPoolId := some "parent", totalBudget := 50,
        usedBudget := 0, remainingBudget := 50, status := .active, createdAt := 0 }
      5 (by decide) (by decide) (by decide) (by decide) (by decide)⟩

/-- C9: when a child pool has enough remaining budget for `n` but its
active parent has `remainingBudget < n`, `consumeBudget(child, n)` throws
BudgetExhausted (`Insufficient budget in pool <parent>`) while the child's
persisted row has already been charged (`usedBudget + n`,
`remainingBudget - n`) and the parent row is unchanged — the two-pool
update is not atomic. -/
theorem c9_partial_consume_on_parent_failure
    (fuel : Nat) (pools : List BudgetPool) (c q : String)
    (cp qp : BudgetPool) (n : Int)
    (hc : getBudgetPool pools c = some cp) (hcact : cp.status = .active)
    (hcrem : n ≤ cp.remainingBudget) (hpar : cp.parentPoolId = some q)
    (hqc : q ≠ c) (hq : getBudgetPool pools q = some qp)
    (hqact : qp.status = .active) (hqrem : qp.remainingBudget < n) :
    (consumeBudget (fuel + 2) pools c n).2 = .error (.insufficientBudget q) ∧
    getBudgetPool (consumeBudget (fuel + 2) pools c n).1 c
      = some (consumeUpd cp n cp) ∧
    getBudgetPool (consumeBudget (fuel + 2) pools c n).1 q = some qp := by
  have hq1 : getBudgetPool (updateBudgetPool pools c (consumeUpd cp n)) q
      = some qp := by
    rw [getBudgetPool_updateBudgetPool_other c q (consumeUpd cp n)
      (fun _ => rfl) hqc pools]
    exact hq
  have hbody : consumeBudget (fuel + 2) pools c n
      = (updateBudgetPool pools c (consumeUpd cp n),
         .error (.insufficientBudget q)) := by
    show consumeBudget (fuel + 1 + 1) pools c n = _
    unfold consumeBudget
    rw [hc]
    simp only
    rw [if_neg (by simp [hcact]), if_neg (by omega), hpar]
    show consumeBudget (fuel + 1)
      (updateBudgetPool pools c (consumeUpd cp n)) q n = _
    unfold consumeBudget
    rw [hq1]
    simp only
    rw [if_neg (by simp [hqact]), if_pos hqrem]
  refine ⟨by rw [hbody], ?_, by rw [hbody]; exact hq1⟩
  rw [hbody]
  show getBudgetPool (updateBudgetPool pools c (consumeUpd cp n)) c = _
  rw [getBudgetPool_updateBudgetPool_self c (consumeUpd cp n)
    (fun _ => rfl) pools, hc]
  rfl

/-- Witness for C9: child(total 50) under parent(total 10), consuming 30. -/
theorem c9_partial_consume_on_parent_failure_witness :
    (consumeBudget 2 (runBudgetOps
        [.create "parent" 10 none, .create "child" 50 (some "parent")])
        "child" 30).2 = .error (.insufficientBudget "parent") ∧
    getBudgetPool (consumeBudget 2 (runBudgetOps
        [.create "parent" 10 none, .create "child" 50 (some "parent")])
        "child" 30).1 "child"
      = some (consumeUpd
        { id := "child", parentPoolId := some "parent", totalBudget := 50,
          usedBudget := 0, remainingBudget := 50, status := .active, createdAt := 0 }
        30
        { id := "child", parentPoolId := some "parent", totalBudget := 50,
          usedBudget := 0, remainingBudget := 50, status := .active, createdAt := 0 }) ∧
    getBudgetPool (consumeBudget 2 (runBudgetOps
        [.create "parent" 10 none, .create "child" 50 (some "parent")])
        "child" 30).1 "parent"
      = some { id := "parent", parentPoolId := none, totalBudget := 10,
               usedBudget := 0, remainingBudget := 10, status := .active,
               createdAt := 0 } :=
  c9_partial_consume_on_parent_failure 0 _ "child" "parent"
    { id := "child", parentPoolId := some "parent", totalBudget := 50,
      usedBudget := 0, remainingBudget := 50, status := .active, createdAt := 0 }
    { id := "parent", parentPoolId := none, totalBudget := 10,
      usedBudget := 0, remainingBudget := 10, status := .active, createdAt := 0 }
    30 (by decide) (by decide) (by decide) (by decide) (by decide) (by decide)
    (by decide) (by decide)

/-- Witness for C5 (amended): consuming the full budget marks the pool
`exhausted`. -/
theorem c5_depleted_is_exhausted_witness :
    ([BudgetOp.create "a" 5 none, .consume "a" 5].all BudgetOp.wf = true) ∧
    ({ id := "a", parentPoolId := none, totalBudget := 5, usedBudget := 5,
       remainingBudget := 0, status := .exhausted, createdAt := 0 } : BudgetPool)
      ∈ runBudgetOps [.create "a" 5 none, .consume "a" 5] ∧
    ({ id := "a", parentPoolId := none, totalBudget := 5, usedBudget := 5,
       remainingBudget := 0, status := .exhausted, createdAt := 0 } : BudgetPool).status
      = .exhausted :=
  ⟨by decide, by decide,
    c5_depleted_is_exhausted [.create "a" 5 none, .consume "a" 5] (by decide) _
      (by decide) (by decide) (by decide)⟩

/-! ### C1, C2 -/

/-- C1 (evaluating the code at the failing input): running a workflow
whose LLM node requires human review writes the pending `human_review`
approval (with the node input as `llmOutput`) and transiently sets the
session to `waiting_for_human_review`, but the raised error is an
ordinary error that `executeWorkflow`'s catch-all failure handler then
catches, so the session's FINAL persisted status is `failed`, not a
`waiting_for_*` value — the approval suspension is treated as a run
failure, contradicting the claim. -/
theorem c1_suspension_marks_session_failed :
    (executeWorkflow noProviderCtx 10 reviewWorkflow "wf1" (.vStr "x")
        { sessionId := none, budgetPoolId := none } engineState0).2
      = .error (.humanReviewRequired "approval-session-0-root.llm-6") ∧
    ((executeWorkflow noProviderCtx 10 reviewWorkflow "wf1" (.vStr "x")
        { sessionId := none, budgetPoolId := none } engineState0).1.store.findSession
        "session-0").map Session.status = some .failed ∧
    (executeWorkflow noProviderCtx 10 reviewWorkflow "wf1" (.vStr "x")
        { sessionId := none, budgetPoolId := none } engineState0).1.store.approvals.map
        (fun a => (a.id, a.sessionId, a.nodeId, a.type, a.status))
      = [("approval-session-0-root.llm-6", "session-0", "root.llm",
          .humanReview, .pending)] ∧
    (executeWorkflow noProviderCtx 10 reviewWorkflow "wf1" (.vStr "x")
        { sessionId := none, budgetPoolId := none } engineState0).1.store.approvals.map
        ApprovalRequest.context
      = [.humanReview "Human review required for LLM node" (.vStr "x")] :=
  ⟨rfl, rfl, by decide, rfl⟩

/-- C2 (evaluating the code at the failing input): executing the
package's own doc-example workflow, whose `entryPoint` is the sentinel
`"entry"` with no entry in `nodes`, does not pass the group input through
along the entry's outgoing edge — the very first loop iteration looks the
sentinel up in `nodes` and throws `Node entry not found in group root`,
failing the session. -/
theorem c2_sentinel_entry_throws_not_found :
    (executeWorkflow noProviderCtx 10 docEntryWorkflow "wf2" (.vStr "in")
        { sessionId := none, budgetPoolId := none } engineState0).2
      = .error (.nodeNotFound "entry" "root") ∧
    EngineError.message (.nodeNotFound "entry" "root")
      = "Node entry not found in group root" ∧
    ((executeWorkflow noProviderCtx 10 docEntryWorkflow "wf2" (.vStr "in")
        { sessionId := none, budgetPoolId := none } engineState0).1.store.findSession
        "session-0").map Session.status = some .failed :=
  ⟨rfl, rfl, rfl⟩

/-! ### Decimal representation is injective (for generated session ids) -/

theorem decodeDigit_digitChar (n : Nat) (h : n < 10) :
    decodeDigit (Nat.digitChar n) = n := by
  interval_cases n <;> rfl

theorem toDigitsCore_foldl :
    ∀ (fuel n : Nat) (ds : List Char), n < 10 ^ fuel →
      (Nat.toDigitsCore 10 fuel n ds).foldl
          (fun acc c => 10 * acc + decodeDigit c) 0
        = ds.foldl (fun acc c => 10 * acc + decodeDigit c) n := by
  intro fuel
  induction fuel with
  | zero =>
    intro n ds h
    have hn : n = 0 := by simpa using h
    subst hn
    rfl
  | succ fuel ih =>
    intro n ds h
    unfold Nat.toDigitsCore
    by_cases hz : n / 10 = 0
    · rw [if_pos hz]
      have hn : n < 10 := by omega
      rw [List.foldl_cons]
      rw [decodeDigit_digitChar (n % 10) (Nat.mod_lt _ (by norm_num))]
      have harith : 10 * 0 + n % 10 = n := by omega
      rw [harith]
    · rw [if_neg hz]
      have hlt : n / 10 < 10 ^ fuel := by
        rw [Nat.div_lt_iff_lt_mul (by norm_num)]
        calc n < 10 ^ (fuel + 1) := h
        _ = 10 ^ fuel * 10 := by ring
      rw [ih (n / 10) (Nat.digitChar (n % 10) :: ds) hlt]
      rw [List.foldl_cons]
      rw [decodeDigit_digitChar (n % 10) (Nat.mod_lt _ (by norm_num))]
      have harith : 10 * (n / 10) + n % 10 = n := by omega
      rw [harith]

theorem decode_toDigits (n : Nat) :
    (Nat.toDigits 10 n).foldl (fun acc c => 10 * acc + decodeDigit c) 0 = n := by
  unfold Nat.toDigits
  rw [toDigitsCore_foldl (n + 1) n []
    (lt_of_lt_of_le (Nat.lt_pow_self (by norm_num) n)
      (Nat.pow_le_pow_right (by norm_num) (Nat.le_succ n)))]
  rfl

theorem nat_repr_injective {m n : Nat} (h : Nat.repr m = Nat.repr n) : m = n := by
  have hl : Nat.toDigits 10 m = Nat.toDigits 10 n := by
    have hd := congrArg String.data h
    simpa [Nat.repr, List.asString] using hd
  have hv := congrArg
    (fun l => List.foldl (fun acc c => 10 * acc + decodeDigit c) 0 l) hl
  simpa [decode_toDigits] using hv

theorem mkSessionId_injective {a b : Nat} (h : mkSessionId a = mkSessionId b) :
    a = b := by
  unfold mkSessionId at h
  have hd := congrArg String.data h
  rw [String.data_append, String.data_append] at hd
  have hdata : (Nat.repr a).data = (Nat.repr b).data :=
    List.append_cancel_left hd
  exact nat_repr_injective (congrArg String.mk hdata)


theorem storeSessionIds_updateSession (st : Store) (sid : String)
    (upd : SessionUpdate) :
    ((st.updateSession sid upd).sessions.map fun ses => ses.id)
      = st.sessions.map fun ses => ses.id := by
  unfold Store.updateSession
  simp only [List.map_map]
  apply List.map_congr_left
  intro ses _
  by_cases h : ses.id = sid <;> simp [h, applySessionUpdate]

theorem executeLLMNode_sessions (ctx : EngineCtx) (maxRetries : Nat)
    (systemPrompt : Option String) (availableTools : List WorkflowTool)
    (rhr : Option Bool) (nid : String) (input : Value) (sid : String)
    (bp : Option String) (S : EngineState) :
    sessionIds (executeLLMNode ctx maxRetries systemPrompt availableTools rhr
      nid input sid bp S).1 = sessionIds S := by
  unfold executeLLMNode
  split_ifs with h1 h2
  · rfl
  · simp only [tick, sessionIds, Store.createApprovalRequest]
    exact storeSessionIds_updateSession _ _ _
  · simp only [tick]
    split
    · rename_i s2 e heq
      have h2 := congrArg (fun p => sessionIds p.1) heq
      dsimp only at h2
      rw [← h2]
      split <;> rfl
    · rename_i s2 heq
      have h2 := congrArg (fun p => sessionIds p.1) heq
      dsimp only at h2
      split
      all_goals rw [← h2]
      all_goals split <;> rfl

theorem executeLLMNode_clock (ctx : EngineCtx) (maxRetries : Nat)
    (systemPrompt : Option String) (availableTools : List WorkflowTool)
    (rhr : Option Bool) (nid : String) (input : Value) (sid : String)
    (bp : Option String) (S : EngineState) :
    S.clock ≤ (executeLLMNode ctx maxRetries systemPrompt availableTools rhr
      nid input sid bp S).1.clock := by
  unfold executeLLMNode
  split_ifs with h1 h2
  · exact le_refl _
  · exact Nat.le_add_right _ 2
  · simp only [tick]
    split
    · rename_i s2 e heq
      have h2 := congrArg (fun p => p.1.clock) heq
      dsimp only at h2
      rw [← h2]
      split <;> exact Nat.le_add_right _ 2
    · rename_i s2 heq
      have h2 := congrArg (fun p => p.1.clock) heq
      dsimp only at h2
      split
      all_goals rw [← h2]
      all_goals split <;> exact Nat.le_add_right _ 2

theorem stateExt_refl (s : EngineState) : StateExt s s :=
  ⟨le_refl _, [], rfl, by simp⟩

theorem stateExt_trans {a b c : EngineState} (h1 : StateExt a b)
    (h2 : StateExt b c) : StateExt a c := by
  obtain ⟨hc1, p1, e1, a1⟩ := h1
  obtain ⟨hc2, p2, e2, a2⟩ := h2
  refine ⟨hc1.trans hc2, p2 ++ p1, by rw [e2, e1, List.append_assoc], ?_⟩
  intro i hi
  rcases List.mem_append.mp hi with hi | hi
  · obtain ⟨t, ht, hEq⟩ := a2 i hi
    exact ⟨t, hc1.trans ht, hEq⟩
  · exact a1 i hi

theorem stateExt_of_eq {s s2 : EngineState} (h : sessionIds s2 = sessionIds s)
    (hc : s.clock ≤ s2.clock) : StateExt s s2 :=
  ⟨hc, [], by simpa using h, by simp⟩

theorem executeLLMNode_ext (ctx : EngineCtx) (maxRetries : Nat)
    (systemPrompt : Option String) (availableTools : List WorkflowTool)
    (rhr : Option Bool) (nid : String) (input : Value) (sid : String)
    (bp : Option String) (S : EngineState) :
    StateExt S (executeLLMNode ctx maxRetries systemPrompt availableTools rhr
      nid input sid bp S).1 :=
  stateExt_of_eq
    (executeLLMNode_sessions ctx maxRetries systemPrompt availableTools rhr
      nid input sid bp S)
    (executeLLMNode_clock ctx maxRetries systemPrompt availableTools rhr
      nid input sid bp S)

theorem engine_state_ext : ∀ fuel : Nat,
    (∀ (ctx : EngineCtx) (wf : Workflow) (wid : String) (input : Value)
        (bp : Option String) (s : EngineState),
      StateExt s (executeWorkflow ctx fuel wf wid input
        { sessionId := none, budgetPoolId := bp } s).1) ∧
    (∀ (ctx : EngineCtx) (node : WorkflowNode) (nid : String) (input : Value)
        (sid : String) (bp : Option String) (s : EngineState),
      StateExt s (executeNode ctx fuel node nid input sid bp s).1) ∧
    (∀ (ctx : EngineCtx) (nodes : List (String × WorkflowNode))
        (edges : List WorkflowEdge) (ep xp nid : String) (input : Value)
        (sid : String) (bp : Option String) (s : EngineState),
      StateExt s (executeGroupNode ctx fuel nodes edges ep xp nid input sid bp s).1) ∧
    (∀ (ctx : EngineCtx) (nodes : List (String × WorkflowNode))
        (edges : List WorkflowEdge) (xp nid sid : String) (bp : Option String)
        (visited : List String) (cur : String) (curIn : Value) (s : EngineState),
      StateExt s (groupLoop ctx fuel nodes edges xp nid sid bp visited cur curIn s).1) ∧
    (∀ (ctx : EngineCtx) (ref : String) (im om : Option TransformFn)
        (ra : Option Bool) (nid : String) (input : Value) (sid : String)
        (bp : Option String) (s : EngineState),
      StateExt s (executeCallWorkflowNode ctx fuel ref im om ra nid input sid bp s).1) := by
  intro fuel
  induction fuel with
  | zero =>
    refine ⟨?_, ?_, ?_, ?_, ?_⟩ <;> intros <;> exact stateExt_refl _
  | succ fuel ih =>
    obtain ⟨ihW, ihN, ihG, ihL, ihC⟩ := ih
    have auxW : ∀ (ctx : EngineCtx) (wf : Workflow) (wid : String)
        (input : Value) (bp : Option String) (S s1 : EngineState)
        (r : Except EngineError RunResult),
        executeWorkflow ctx fuel wf wid input
          { sessionId := none, budgetPoolId := bp } S = (s1, r) →
        StateExt S s1 := by
      intro ctx wf wid input bp S s1 r h
      have hh := ihW ctx wf wid input bp S
      rwa [h] at hh
    have auxN : ∀ (ctx : EngineCtx) (node : WorkflowNode) (nid : String)
        (input : Value) (sid : String) (bp : Option String)
        (S s1 : EngineState) (r : Except EngineError Value),
        executeNode ctx fuel node nid input sid bp S = (s1, r) →
        StateExt S s1 := by
      intro ctx node nid input sid bp S s1 r h
      have hh := ihN ctx node nid input sid bp S
      rwa [h] at hh
    have auxG : ∀ (ctx : EngineCtx) (nodes : List (String × WorkflowNode))
        (edges : List WorkflowEdge) (ep xp nid : String) (input : Value)
        (sid : String) (bp : Option String) (S s1 : EngineState)
        (r : Except EngineError Value),
        executeGroupNode ctx fuel nodes edges ep xp nid input sid bp S = (s1, r) →
        StateExt S s1 := by
      intro ctx nodes edges ep xp nid input sid bp S s1 r h
      have hh := ihG ctx nodes edges ep xp nid input sid bp S
      rwa [h] at hh
    have auxC : ∀ (ctx : EngineCtx) (ref : String) (im om : Option TransformFn)
        (ra : Option Bool) (nid : String) (input : Value) (sid : String)
        (bp : Option String) (S s1 : EngineState) (r : Except EngineError Value),
        executeCallWorkflowNode ctx fuel ref im om ra nid input sid bp S = (s1, r) →
        StateExt S s1 := by
      intro ctx ref im om ra nid input sid bp S s1 r h
      have hh := ihC ctx ref im om ra nid input sid bp S
      rwa [h] at hh
    have auxM : ∀ (ctx : EngineCtx) (mr : Nat) (sp : Option String)
        (av : List WorkflowTool) (rhr : Option Bool) (nid : String)
        (input : Value) (sid : String) (bp : Option String)
        (S s1 : EngineState) (r : Except EngineError Value),
        executeLLMNode ctx mr sp av rhr nid input sid bp S = (s1, r) →
        StateExt S s1 := by
      intro ctx mr sp av rhr nid input sid bp S s1 r h
      have hh := executeLLMNode_ext ctx mr sp av rhr nid input sid bp S
      rw [h] at hh
      exact hh
    refine ⟨?_, ?_, ?_, ?_, ?_⟩
    · -- executeWorkflow with a fresh session id
      intro ctx wf wid input bp s
      simp only [executeWorkflow, tick]
      split
      all_goals rename_i s1 r1 heq
      all_goals
        have h2 := auxN _ _ _ _ _ _ _ _ _ heq
        obtain ⟨hc, pre, hids, hall⟩ := h2
        have hc2 : s.clock + 1 + 1 + 1 + 1 ≤ s1.clock := hc
        have hids2 : s1.store.sessions.map (fun ses => ses.id) =
            pre ++ (mkSessionId s.clock :: sessionIds s) := hids
        refine ⟨?_, pre ++ [mkSessionId s.clock], ?_, ?_⟩
        · show s.clock ≤ s1.clock + 1 + 1
          omega
        · have h5 : s1.store.sessions.map (fun ses => ses.id) =
              (pre ++ [mkSessionId s.clock]) ++ sessionIds s := by
            rw [hids2]
            simp
          exact (storeSessionIds_updateSession _ _ _).trans h5
        · intro i hi
          rcases List.mem_append.mp hi with hi | hi
          · obtain ⟨t, ht, hEq⟩ := hall i hi
            have ht2 : s.clock + 1 + 1 + 1 + 1 ≤ t := ht
            exact ⟨t, by omega, hEq⟩
          · rw [List.mem_singleton] at hi
            exact ⟨s.clock, le_refl _, hi⟩
    · -- executeNode
      intro ctx node nid input sid bp s
      simp only [executeNode, tick]
      cases node with
      | group label nodes edges entryPoint exitPoint =>
        simp only
        split
        all_goals rename_i s1 r1 heq
        all_goals
          have h2 := auxG _ _ _ _ _ _ _ _ _ _ _ _ heq
          refine stateExt_trans (stateExt_trans ?_ h2) ?_
          · exact stateExt_of_eq rfl (Nat.le_add_right _ 1)
          · exact stateExt_of_eq rfl (Nat.le_add_right _ 1)
      | llm maxRetries systemPrompt availableTools requiresHumanReview =>
        simp only
        split
        all_goals rename_i s1 r1 heq
        all_goals
          have h2 := auxM _ _ _ _ _ _ _ _ _ _ _ _ heq
          refine stateExt_trans (stateExt_trans ?_ h2) ?_
          · exact stateExt_of_eq rfl (Nat.le_add_right _ 1)
          · exact stateExt_of_eq rfl (Nat.le_add_right _ 1)
      | transform fn =>
        simp only
        split
        all_goals rename_i s1 r1 heq
        all_goals
          have h4 : _ = s1 := congrArg Prod.fst heq
          subst h4
          exact stateExt_of_eq rfl (Nat.le_add_right _ 2)
      | callWorkflow workflowRef inputMapping outputMapping requiresApproval =>
        simp only
        split
        all_goals rename_i s1 r1 heq
        all_goals
          have h2 := auxC _ _ _ _ _ _ _ _ _ _ _ _ heq
          refine stateExt_trans (stateExt_trans ?_ h2) ?_
          · exact stateExt_of_eq rfl (Nat.le_add_right _ 1)
          · exact stateExt_of_eq rfl (Nat.le_add_right _ 1)
      | stream =>
        exact stateExt_of_eq rfl (Nat.le_add_right _ 2)
      | generator =>
        exact stateExt_of_eq rfl (Nat.le_add_right _ 2)
    · -- executeGroupNode
      intro ctx nodes edges ep xp nid input sid bp s
      simp only [executeGroupNode]
      exact ihL ctx nodes edges xp nid sid bp [] ep input s
    · -- groupLoop
      intro ctx nodes edges xp nid sid bp visited cur curIn s
      simp only [groupLoop]
      by_cases hx : cur = xp
      · rw [if_pos hx]
        exact stateExt_refl _
      · rw [if_neg hx]
        by_cases hv : visited.contains cur = true
        · rw [if_pos hv]
          exact stateExt_refl _
        · rw [if_neg hv]
          cases hlook : lookupNode nodes cur with
          | none => exact stateExt_refl _
          | some currentNode =>
            simp only
            split
            all_goals rename_i s1 r1 heq
            · -- error arm
              exact auxN _ _ _ _ _ _ _ _ _ heq
            · -- ok arm: match on the edge
              cases hedge : edges.find? (fun e => e.fromId = cur) with
              | none => exact auxN _ _ _ _ _ _ _ _ _ heq
              | some edge =>
                simp only
                have h2 := auxN _ _ _ _ _ _ _ _ _ heq
                exact stateExt_trans h2 (ihL _ _ _ _ _ _ _ _ _ _ _)
    · -- executeCallWorkflowNode
      intro ctx ref im om ra nid input sid bp s
      simp only [executeCallWorkflowNode, tick]
      by_cases hra : ra = some true
      · rw [if_pos hra]
        refine stateExt_of_eq ?_ ?_
        · simp only [sessionIds, Store.createApprovalRequest]
          rw [storeSessionIds_updateSession]
        · exact Nat.le_add_right _ 2
      · rw [if_neg hra]
        cases hget : s.store.getWorkflow ref with
        | none => exact stateExt_refl _
        | some sw =>
          simp only
          split
          · exact stateExt_refl _
          · rename_i mapped hmap
            split
            all_goals rename_i s1 r1 heq
            · -- error from the nested run
              exact auxW _ _ _ _ _ _ _ _ heq
            · -- nested run succeeded: output mapping is pure
              cases om with
              | none => exact auxW _ _ _ _ _ _ _ _ heq
              | some m =>
                simp only
                split
                all_goals
                  have h2 := auxW _ _ _ _ _ _ _ _ heq
                  exact h2

theorem findSession_updateSession_some (rows : List Session) (sid : String)
    (upd : SessionUpdate) (pre rest : List String)
    (hmap : rows.map (fun ses => ses.id) = pre ++ sid :: rest)
    (hpre : ∀ i ∈ pre, i ≠ sid) :
    ∃ row, ((rows.map fun ses =>
        if ses.id = sid then applySessionUpdate upd ses else ses).find?
      fun ses => ses.id = sid) = some (applySessionUpdate upd row) := by
  induction rows generalizing pre with
  | nil => cases pre <;> simp at hmap
  | cons r rs ih =>
    cases pre with
    | nil =>
      simp only [List.map_cons, List.nil_append] at hmap
      injection hmap with h1 h2
      refine ⟨r, ?_⟩
      simp only [List.map_cons, if_pos h1]
      rw [List.find?_cons_of_pos]
      simp [applySessionUpdate, h1]
    | cons p ps =>
      simp only [List.map_cons, List.cons_append] at hmap
      injection hmap with h1 h2
      have hp : p ≠ sid := hpre p (List.mem_cons_self _ _)
      have hrid : r.id ≠ sid := by rw [h1]; exact hp
      obtain ⟨row, hrow⟩ :=
        ih ps h2 (fun i hi => hpre i (List.mem_cons_of_mem _ hi))
      refine ⟨row, ?_⟩
      simp only [List.map_cons, if_neg hrid]
      rw [List.find?_cons_of_neg]
      · exact hrow
      · simp [hrid]

theorem executeWorkflow_none_ok (ctx : EngineCtx) (fuel : Nat) (wf : Workflow)
    (wid : String) (input : Value) (bp : Option String) (s s2 : EngineState)
    (res : RunResult)
    (h : executeWorkflow ctx (fuel + 1) wf wid input
      { sessionId := none, budgetPoolId := bp } s = (s2, .ok res)) :
    res.sessionId = mkSessionId s.clock ∧
    (s2.store.findSession (mkSessionId s.clock)).map Session.status =
      some SessionStatus.completed ∧
    List.IsSuffix (mkSessionId s.clock :: sessionIds s) (sessionIds s2) ∧
    s.clock < s2.clock := by
  simp only [executeWorkflow, tick] at h
  split at h
  · -- inner executeNode succeeded
    rename_i s1 output heq
    rw [Prod.mk.injEq] at h
    obtain ⟨hs2, hres⟩ := h
    injection hres with hres2
    subst hs2
    subst hres2
    have hext := ((engine_state_ext fuel).2.1) ctx wf.root "root" input
      (mkSessionId s.clock) bp
    have haux : ∀ (S s1 : EngineState) (r : Except EngineError Value),
        executeNode ctx fuel wf.root "root" input (mkSessionId s.clock) bp S =
          (s1, r) → StateExt S s1 := by
      intro S s1 r hq
      have hh := hext S
      rwa [hq] at hh
    obtain ⟨hc, pre, hids, hall⟩ := haux _ _ _ heq
    have hc2 : s.clock + 1 + 1 + 1 + 1 ≤ s1.clock := hc
    have hids2 : s1.store.sessions.map (fun ses => ses.id) =
        pre ++ (mkSessionId s.clock :: sessionIds s) := hids
    have hpre : ∀ i ∈ pre, i ≠ mkSessionId s.clock := by
      intro i hi hbad
      obtain ⟨t, ht, hEq⟩ := hall i hi
      have ht2 : s.clock + 1 + 1 + 1 + 1 ≤ t := ht
      rw [hbad] at hEq
      have := mkSessionId_injective hEq
      omega
    obtain ⟨row, hrow⟩ := findSession_updateSession_some s1.store.sessions
      (mkSessionId s.clock) { status := some .completed, updatedAt := some s1.clock }
      pre (sessionIds s) hids2 hpre
    refine ⟨rfl, ?_, ?_, ?_⟩
    · exact Eq.trans (congrArg (Option.map Session.status) hrow) rfl
    · refine ⟨pre, Eq.symm ?_⟩
      have h5 : s1.store.sessions.map (fun ses => ses.id) =
          pre ++ (mkSessionId s.clock :: sessionIds s) := hids2
      exact (storeSessionIds_updateSession _ _ _).trans h5
    · show s.clock < s1.clock + 1 + 1
      omega
  · -- inner executeNode failed: the run cannot return ok
    rename_i s1 e heq
    rw [Prod.mk.injEq] at h
    exact Except.noConfusion h.2

/-- C10: a callWorkflow node without requiresApproval runs the referenced
workflow under a freshly generated session id distinct from the enclosing
run's session id; the store gains at least one session row, and on success
the inner session's persisted status is completed. -/
theorem c10_call_creates_completed_session (ctx : EngineCtx) (fuel : Nat)
    (ref : String) (im om : Option TransformFn) (ra : Option Bool)
    (nid : String) (input : Value) (t0 : Nat) (bp : Option String)
    (s s2 : EngineState) (out : Value)
    (hra : ra ≠ some true)
    (h : executeCallWorkflowNode ctx fuel ref im om ra nid input
      (mkSessionId t0) bp s = (s2, .ok out))
    (ht : t0 < s.clock) :
    mkSessionId s.clock ≠ mkSessionId t0 ∧
    (s2.store.findSession (mkSessionId s.clock)).map Session.status =
      some SessionStatus.completed ∧
    s.store.sessions.length < s2.store.sessions.length := by
  cases fuel with
  | zero =>
    simp only [executeCallWorkflowNode] at h
    rw [Prod.mk.injEq] at h
    exact Except.noConfusion h.2
  | succ fuel =>
    simp only [executeCallWorkflowNode] at h
    rw [if_neg hra] at h
    split at h
    · rw [Prod.mk.injEq] at h
      exact Except.noConfusion h.2
    · rename_i sw hget
      split at h
      · rw [Prod.mk.injEq] at h
        exact Except.noConfusion h.2
      · rename_i mapped hmap
        split at h
        · rename_i sW e heqW
          rw [Prod.mk.injEq] at h
          exact Except.noConfusion h.2
        · rename_i sW result heqW
          cases fuel with
          | zero =>
            simp only [executeWorkflow] at heqW
            rw [Prod.mk.injEq] at heqW
            exact Except.noConfusion heqW.2
          | succ f2 =>
            obtain ⟨hsid, hfind, hsuf, hclk⟩ :=
              executeWorkflow_none_ok ctx f2 sw.definition ref mapped bp s sW
                result heqW
            have hgoal : mkSessionId s.clock ≠ mkSessionId t0 ∧
                (sW.store.findSession (mkSessionId s.clock)).map Session.status =
                  some SessionStatus.completed ∧
                s.store.sessions.length < sW.store.sessions.length := by
              refine ⟨?_, hfind, ?_⟩
              · intro hbad
                have := mkSessionId_injective hbad
                omega
              · have hlen := hsuf.length_le
                simp only [List.length_cons, sessionIds, List.length_map] at hlen
                omega
            cases om with
            | none =>
              rw [Prod.mk.injEq] at h
              obtain ⟨h1, h2⟩ := h
              subst h1
              exact hgoal
            | some m =>
              split at h
              · rename_i m2 hm2
                split at h
                · rw [Prod.mk.injEq] at h
                  obtain ⟨h1, h2⟩ := h
                  subst h1
                  exact hgoal
                · rw [Prod.mk.injEq] at h
                  exact Except.noConfusion h.2
              · rename_i hm2
                exact Option.noConfusion hm2

theorem c10_call_creates_completed_session_witness :
    (none : Option Bool) ≠ some true ∧ 0 < midRunState.clock ∧
    (mkSessionId midRunState.clock ≠ mkSessionId 0 ∧
    (((executeCallWorkflowNode noProviderCtx 9 "w2" none none none "root.call"
        (.vInt 42) (mkSessionId 0) none midRunState).1).store.findSession
      (mkSessionId midRunState.clock)).map Session.status =
        some SessionStatus.completed ∧
    midRunState.store.sessions.length <
      ((executeCallWorkflowNode noProviderCtx 9 "w2" none none none "root.call"
        (.vInt 42) (mkSessionId 0) none midRunState).1).store.sessions.length) :=
  ⟨by decide, by decide,
    c10_call_creates_completed_session noProviderCtx 9 "w2" none none none
      "root.call" (.vInt 42) 0 none midRunState
      (executeCallWorkflowNode noProviderCtx 9 "w2" none none none "root.call"
        (.vInt 42) (mkSessionId 0) none midRunState).1
      (.vInt 42) (by decide) rfl (by decide)⟩

end Aaow
